import Mathlib

/-!
# querybuilder (package qb): helper.go

A shallow embedding of the statement-synthesis helpers of helper.go and the
properties proved about them.

Conventions of the embedding

* A Go string is a list of runes (`GoString`). Positions returned by `Index`
  count runes where Go counts bytes; every position is only used to cut the
  very string it was found in, next to one-byte delimiters, so the cuts agree.
* A Go `error` is its message; `none` is the nil error. A nil slice and an
  empty slice are both the empty list.
* `int` values are unbounded integers. Wrap-around at 64 bits is not
  modelled: it would take a batch size, repeat count or field count near 2^63,
  for which the slices involved could not be allocated.
* A call either returns, or stops with a run-time panic (`Outcome.crash`), or,
  for the one loop whose trip count is not bounded by its input, runs out of
  the fuel it was given (`Outcome.outOfFuel`).
* Records are struct values with exported fields, seen through reflection as
  the ordered list of their fields, each with its value and the result of
  looking up the `qb` key of its tag.
-/

namespace qb

/-! ## Strings -/

/-- A Go string, as the sequence of its runes. -/
abbrev GoString := List Char

/-- A Go error value, identified with its message. -/
abbrev GoError := GoString

/-- What a call does: return a value, panic, or exhaust its fuel. -/
inductive Outcome (α : Type) where
  | returns (a : α)
  | crash
  | outOfFuel
  deriving DecidableEq, Repr

/-- The slice expression `s[lo:hi]`; `none` is the bounds panic. -/
def slice {α : Type} (s : List α) (lo hi : Int) : Option (List α) :=
  if 0 ≤ lo ∧ lo ≤ hi ∧ hi ≤ (s.length : Int) then
    some ((s.drop lo.toNat).take (hi.toNat - lo.toNat))
  else none

/-- The rune mapping unicode.ToLower: the ASCII shift on ASCII, and the Unicode
case tables, which are passed as `tbl`, elsewhere. -/
def unicodeToLower (tbl : Char → Char) (c : Char) : Char :=
  if c.toNat < 128 then
    (if 65 ≤ c.toNat ∧ c.toNat ≤ 90 then Char.ofNat (c.toNat + 32) else c)
  else tbl c

/-- The function strings.ToLower. -/
def ToLower (tbl : Char → Char) (s : GoString) : GoString :=
  s.map (unicodeToLower tbl)

/-- Scan for the first position at or after `i` where `substr` starts. -/
def indexFrom (substr : GoString) : GoString → Nat → Option Nat
  | [], i => if substr = [] then some i else none
  | c :: cs, i =>
    if substr.isPrefixOf (c :: cs) then some i else indexFrom substr cs (i + 1)

/-- The function strings.Index: position of the first occurrence, or -1. -/
def Index (s substr : GoString) : Int :=
  match indexFrom substr s 0 with
  | some i => (i : Int)
  | none => -1

/-- The function strings.Contains. -/
def Contains (s substr : GoString) : Bool :=
  decide (Index s substr ≥ 0)

/-- The function strings.HasPrefix. -/
def HasPrefix (s pre : GoString) : Bool :=
  pre.isPrefixOf s

/-- The function strings.Join. -/
def Join : List GoString → GoString → GoString
  | [], _ => []
  | [a], _ => a
  | a :: b :: rest, sep => a ++ sep ++ Join (b :: rest) sep

/-- Worker of `Split`: `skip` runes of a separator just matched are still to be
passed over, `piece` is the piece being collected. -/
def splitFrom (sep : GoString) : Nat → GoString → GoString → List GoString
  | _, piece, [] => [piece]
  | skip + 1, piece, _ :: cs => splitFrom sep skip piece cs
  | 0, piece, c :: cs =>
    if sep.isPrefixOf (c :: cs) then piece :: splitFrom sep (sep.length - 1) [] cs
    else splitFrom sep 0 (piece ++ [c]) cs

/-- The function strings.Split for a non-empty separator (helper.go only passes
the literals ",", ":" and "where "). -/
def Split (s sep : GoString) : List GoString :=
  splitFrom sep 0 [] s

/-- The call `strings.Replace(s, " ", "", -1)`: every space is removed. -/
def removeSpaces (s : GoString) : GoString :=
  s.filter (fun c => c != ' ')

/-- The predicate unicode.IsSpace. -/
def isSpace (c : Char) : Bool :=
  let n := c.toNat
  (9 ≤ n && n ≤ 13) || n == 32 || n == 0x85 || n == 0xA0 || n == 0x1680 ||
  (0x2000 ≤ n && n ≤ 0x200A) || n == 0x2028 || n == 0x2029 || n == 0x202F ||
  n == 0x205F || n == 0x3000

/-- The function strings.TrimSpace. -/
def TrimSpace (s : GoString) : GoString :=
  ((s.dropWhile isSpace).reverse.dropWhile isSpace).reverse

/-! ## ChunkIt -/

/-- The loop of ChunkIt, `for i := 0; i < len(rows); i += rowChunk`, entered
with the current `i` and `result`. -/
def chunkLoop {α : Type} (rows : List α) (rowChunk : Int) :
    Nat → Int → List (List α) → Outcome (List (List α))
  | 0, _, _ => .outOfFuel
  | fuel + 1, i, result =>
    if i < (rows.length : Int) then
      let end0 := i + rowChunk
      let end1 := if end0 > (rows.length : Int) then (rows.length : Int) else end0
      match slice rows i end1 with
      | none => .crash
      | some batch => chunkLoop rows rowChunk fuel (i + rowChunk) (result ++ [batch])
    else .returns result

/-- ChunkIt split slice into slices of slice based on batch size. -/
def ChunkIt {α : Type} (fuel : Nat) (rows : List α) (insertBatchSize : Int) :
    Outcome (List (List α)) :=
  let rowLen : Int := rows.length
  let rowChunk := insertBatchSize
  if rowLen > rowChunk then chunkLoop rows rowChunk fuel 0 []
  else .returns ([] ++ [rows])

/-! ## Records -/

/-- One field of a struct value as reflection shows it: `qb` is the result of
`Tag.Lookup("qb")` on the field (`none` when the tag has no such key), `value`
is `Field(i).Interface()`. -/
structure StructField (V : Type) where
  qb : Option GoString
  value : V

/-- A record: the fields of a struct value in declared order. -/
abbrev Record (V : Type) := List (StructField V)

/-- The struct type of a record: the `qb` tag lookups of its fields. -/
def Record.shape {V : Type} (a : Record V) : List (Option GoString) :=
  a.map (fun f => f.qb)

/-- customPlaceholders fetches placeholders from tags if they exist. -/
def customPlaceholders (shape : List (Option GoString)) : List GoString :=
  shape.map fun lookup =>
    match lookup with
    | some tag =>
      let tag := TrimSpace tag
      if HasPrefix tag "placeholder".toList then
        let split := Split tag ":".toList
        if split.length ≥ 2 then split.getD 1 [] else []
      else []
    | none => []

/-! ## Placeholder derivation -/

/-- The function extractQueryColumns: the text between the first "(" and the
first ")", spaces removed, split at commas. -/
def extractQueryColumns (query : GoString) : Outcome (List GoString) :=
  let columnsStart := Index query "(".toList
  let columnsEnd := Index query ")".toList
  match slice query (columnsStart + 1) columnsEnd with
  | none => .crash
  | some columnsString =>
    let columnsString := removeSpaces columnsString
    .returns (Split columnsString ",".toList)

/-- The text of the error createPlaceholder reports. -/
def shapeMismatch : GoError := "Structure type doesn't match column count".toList

/-- The token createPlaceholder stores at position `i`. -/
def placeholderAt (custom : List GoString) (i : Nat) : GoString :=
  if i < custom.length ∧ (custom.getD i []).length > 0 then custom.getD i []
  else "?".toList

/-- createPlaceholder create placeholder for one insert on structure. -/
def createPlaceholder {V : Type} (query : GoString) (a : Record V) :
    Outcome (GoString × Int × Option GoError) :=
  let fCount := a.length
  let custom := customPlaceholders a.shape
  match extractQueryColumns query with
  | .crash => .crash
  | .outOfFuel => .outOfFuel
  | .returns columns =>
    if columns.length ≠ fCount then .returns ([], 0, some shapeMismatch)
    else
      let ph := (List.range fCount).map (placeholderAt custom)
      .returns ("(".toList ++ Join ph ",".toList ++ ")".toList, (fCount : Int), none)

/-! ## Statement assembly -/

/-- The function queryValues. -/
def queryValues (tbl : Char → Char) (query : GoString) : GoString :=
  let query := ToLower tbl query
  let valuesIndex := Index query "values".toList
  let query := if valuesIndex > 0 then query.take valuesIndex.toNat else query
  query ++ " values".toList

/-- The inner loop of CreateStatement over the fields of one entry:
`args[argCount] = v.Field(y).Interface(); argCount++`; `none` is the index
panic. -/
def storeFields {V : Type} :
    List (Option V) × Nat → List V → Option (List (Option V) × Nat)
  | st, [] => some st
  | (args, argCount), v :: vs =>
    if argCount < args.length then storeFields (args.set argCount (some v), argCount + 1) vs
    else none

/-- The outer loop of CreateStatement over the rows. -/
def storeRows {V : Type} :
    List (Option V) × Nat → List (Record V) → Option (List (Option V) × Nat)
  | st, [] => some st
  | st, entry :: rest =>
    match storeFields st (entry.map (fun f => f.value)) with
    | none => none
    | some st1 => storeRows st1 rest

/-- The opening block of CreateStatement,
`if len(placeholder) == 0 && count == 0 { ... createPlaceholder(query, rows[0]) ... }`:
the placeholder, count and error in force after it. -/
def derivedPlaceholder {V : Type} (query : GoString) (rows : List (Record V))
    (placeholder : GoString) (count : Int) : Outcome (GoString × Int × Option GoError) :=
  if placeholder.length = 0 ∧ count = 0 then
    match rows with
    | [] => .crash
    | first :: _ => createPlaceholder query first
  else .returns (placeholder, count, none)

/-- CreateStatement create insert statement for large data set. An argument is
`some v` for a stored field value and `none` for a slot left nil. -/
def CreateStatement {V : Type} (tbl : Char → Char) (query : GoString)
    (rows : List (Record V)) (placeholder : GoString) (count : Int) :
    Outcome (GoString × List (Option V) × Option GoError) :=
  match derivedPlaceholder query rows placeholder count with
  | .crash => .crash
  | .outOfFuel => .outOfFuel
  | .returns (_, _, some err) => .returns ([], [], some err)
  | .returns (placeholder, count, none) =>
    let placeholders := rows.map (fun _ => placeholder)
    let size : Int := (rows.length : Int) * count
    if size < 0 then .crash
    else
      match storeRows (List.replicate size.toNat none, 0) rows with
      | none => .crash
      | some (args, _) =>
        let query := queryValues tbl query
        .returns (query ++ " ".toList ++ Join placeholders ",".toList, args, none)

/-! ## Operator fragments -/

/-- Modelled from the spec: the predicate operator kinds of the Operator
Builder. The type `Operator` and its constants are declared outside helper.go;
helper.go names `In`, `Like`, `Or` and `Equals`, every other kind is `other`. -/
inductive Operator where
  | Equals
  | In
  | Like
  | Or
  | other (kind : Nat)
  deriving DecidableEq, Repr

/-- The two methods of `Operator` that helper.go calls and that are declared
outside it: `String()` and `WithPlaceholder(placeholder)`. -/
structure OperatorMethods where
  string : Operator → GoString
  withPlaceholder : Operator → GoString → GoString

/-- The loop of the `In` case: `counter` appends of the token. -/
def inTokens (counter : Int) (placeholder : GoString) : List GoString :=
  (List.range counter.toNat).foldl
    (fun newOperator _ =>
      if placeholder.length > 0 then newOperator ++ [placeholder]
      else newOperator ++ ["?".toList])
    []

/-- The loop of the `Like` case: `ors[i]` is set for `i` from 0 below `counter`. -/
def likeTerms (counter : Int) (placeholder : GoString) (ors : List GoString) :
    List GoString :=
  (List.range counter.toNat).foldl
    (fun ors i =>
      if placeholder.length > 0 then ors.set i ("(".toList ++ placeholder ++ ")".toList)
      else ors.set i "(?)".toList)
    ors

/-- The loop of the `Or` case with more than one term. -/
def orTerms (m : OperatorMethods) (column : GoString) (counter : Int)
    (placeholder : GoString) : List GoString :=
  (List.range counter.toNat).foldl
    (fun ors _ =>
      if placeholder.length > 0 then
        ors ++ [column ++ " ".toList ++ m.withPlaceholder .Equals placeholder]
      else ors ++ [column ++ " ".toList ++ m.string .Equals ++ "?".toList])
    []

/-- The function buildOperator; the result is the pair (column, fragment). -/
def buildOperator (m : OperatorMethods) (column : GoString) (operator : Operator)
    (counter : Int) (placeholder : GoString) : Outcome (GoString × GoString) :=
  match operator with
  | .In =>
    let newOperator := inTokens counter placeholder
    .returns (column, "in (".toList ++ Join newOperator ",".toList ++ ")".toList)
  | .Like =>
    if counter < 0 then .crash
    else
      let ors := likeTerms counter placeholder (List.replicate counter.toNat [])
      .returns (column, "like ".toList ++ Join ors " or ".toList)
  | .Or =>
    if counter = 1 then
      if placeholder.length > 0 then .returns (column, m.withPlaceholder .Equals placeholder)
      else .returns (column, m.string .Equals)
    else if counter > 1 then
      let ors := orTerms m column counter placeholder
      .returns ([], "(".toList ++ Join ors " or ".toList ++ ")".toList)
    else .returns (column, [])
  | op =>
    if placeholder.length > 0 then .returns (column, m.withPlaceholder op placeholder)
    else .returns (column, m.string op)

/-! ## Query rewriting -/

/-- cleanSlice remove empty strings from string slice: a piece is skipped when
nothing is left of it once its spaces are removed. -/
def cleanSlice (a : List GoString) : List GoString :=
  a.filter (fun b => !((removeSpaces b).length == 0))

/-- The function cleanQueryString. -/
def cleanQueryString (tbl : Char → Char) (query : GoString) : GoString :=
  let query := ToLower tbl query
  let queryPieces := Split query "where ".toList
  let queryPieces := cleanSlice queryPieces
  let newPieces := queryPieces.filter (fun w => !(Contains w "?".toList))
  Join newPieces "where ".toList

/-! ## Request validation -/

/-- Modelled from the spec: the keys of the package-level table `errors`, which
is declared outside helper.go; helper.go indexes it with `requestEmpty`
(RequestEmpty), `queryError` (QueryError) and `databaseError`
(DatabaseUnavailable). -/
inductive ErrorKey where
  | requestEmpty
  | queryError
  | databaseError
  deriving DecidableEq, Repr

/-- The function checkInsertRequest. `errors` is the message table, `db` is
`none` for a nil handle; `fmt.Errorf(errors[k])` is the error with the message
`errors k` (the messages are taken to hold no formatting verb). -/
def checkInsertRequest {V D : Type} (errors : ErrorKey → GoString) (query : GoString)
    (rows : List (Record V)) (db : Option D) : Option GoError :=
  if rows.length = 0 then some (errors .requestEmpty)
  else if query.length = 0 then some (errors .queryError)
  else if db.isNone then some (errors .databaseError)
  else none

/-! ## ChunkIt: the batches -/

theorem slice_batch {α : Type} (rows : List α) (n m : Nat) (h : n < rows.length) :
    slice rows (n : Int)
      (if (n : Int) + (m : Int) > (rows.length : Int) then (rows.length : Int)
        else (n : Int) + (m : Int)) = some ((rows.drop n).take m) := by
  unfold slice
  by_cases hgt : (n : Int) + (m : Int) > (rows.length : Int)
  · rw [if_pos hgt, if_pos (by omega)]
    simp only [Int.toNat_ofNat, Option.some.injEq]
    rw [List.take_of_length_le (by simp), List.take_of_length_le (by simp; omega)]
  · rw [if_neg hgt, if_pos (by omega)]
    have e : ((n : Int) + (m : Int)).toNat - n = m := by omega
    simp only [Int.toNat_ofNat, e]

theorem chunkLoop_spec {α : Type} (rows : List α) (m : Nat) (hm : 0 < m) :
    ∀ (fuel n : Nat) (result : List (List α)), rows.length - n < fuel →
      ∃ R : List (List α),
        chunkLoop rows (m : Int) fuel (n : Int) result = .returns (result ++ R) ∧
        R.flatten = rows.drop n ∧
        (R = [] ↔ rows.length ≤ n) ∧
        (∀ x ∈ R.dropLast, x.length = m) ∧
        (∀ l, R.getLast? = some l →
          l.length = if (rows.length - n) % m = 0 then m else (rows.length - n) % m) := by
  intro fuel
  induction fuel with
  | zero => intro n result h; omega
  | succ fuel ih =>
    intro n result h
    unfold chunkLoop
    by_cases hn : (n : Int) < (rows.length : Int)
    · have hn1 : n < rows.length := by omega
      rw [if_pos hn]
      simp only []
      rw [slice_batch rows n m hn1]
      simp only []
      obtain ⟨R, hR, hjoin, hnil, hinit, hlast⟩ :=
        ih (n + m) (result ++ [(rows.drop n).take m]) (by omega)
      refine ⟨(rows.drop n).take m :: R, ?_, ?_, ?_, ?_, ?_⟩
      · have e : (n : Int) + (m : Int) = ((n + m : Nat) : Int) := by push_cast; rfl
        rw [e, hR]; simp
      · rw [List.flatten_cons, hjoin, ← List.drop_drop, List.take_append_drop]
      · constructor
        · intro h0; exact absurd h0 (List.cons_ne_nil _ _)
        · intro h0; omega
      · intro x hx
        cases R with
        | nil => simp at hx
        | cons r R1 =>
          have hlen : ¬ rows.length ≤ n + m := fun hle => by
            have := hnil.2 hle
            exact absurd this (List.cons_ne_nil _ _)
          rw [List.dropLast_cons₂] at hx
          rcases List.mem_cons.1 hx with hx | hx
          · subst hx; simp; omega
          · exact hinit x hx
      · intro l hl
        cases R with
        | nil =>
          have hle : rows.length ≤ n + m := hnil.1 rfl
          simp at hl
          subst hl
          simp only [List.length_take, List.length_drop]
          by_cases heq : rows.length - n = m
          · rw [heq]; simp
          · have hlt : rows.length - n < m := by omega
            rw [Nat.mod_eq_of_lt hlt, if_neg (by omega)]; omega
        | cons r R1 =>
          have hlen : ¬ rows.length ≤ n + m := fun hle => by
            have := hnil.2 hle
            exact absurd this (List.cons_ne_nil _ _)
          rw [List.getLast?_cons_cons] at hl
          have := hlast l hl
          have e : rows.length - n = (rows.length - (n + m)) + m := by omega
          rw [e, Nat.add_mod_right]; exact this
    · rw [if_neg hn]
      refine ⟨[], by simp, ?_, ?_, ?_, ?_⟩
      · rw [List.drop_of_length_le (by omega)]; rfl
      · constructor
        · intro _; omega
        · intro _; rfl
      · intro x hx; simp at hx
      · intro l hl; simp at hl

/-- C1: for a batch size b > 0 and any records, ChunkIt (given fuel above the
number of records) returns batches whose concatenation, in returned order, is
exactly the input: same records, same order, none lost or duplicated. -/
theorem ChunkIt_concat {α : Type} (rows : List α) (b : Int) (hb : 0 < b)
    (fuel : Nat) (hfuel : rows.length < fuel) :
    ∃ batches, ChunkIt fuel rows b = .returns batches ∧ batches.flatten = rows := by
  obtain ⟨m, rfl⟩ : ∃ m : Nat, b = (m : Int) := ⟨b.toNat, by omega⟩
  have hm : 0 < m := by omega
  unfold ChunkIt
  simp only []
  by_cases hlen : (rows.length : Int) > (m : Int)
  · rw [if_pos hlen]
    obtain ⟨R, hR, hflat, -, -, -⟩ := chunkLoop_spec rows m hm fuel 0 [] (by omega)
    exact ⟨R, by simpa using hR, by simpa using hflat⟩
  · rw [if_neg hlen]
    exact ⟨[rows], rfl, by simp⟩

/-- Witness of C1: five records in batches of two. -/
theorem ChunkIt_concat_witness :
    (0 : Int) < 2 ∧ [1, 2, 3, 4, 5].length < 6 ∧
      ∃ batches, ChunkIt 6 [1, 2, 3, 4, 5] 2 = .returns batches ∧
        batches.flatten = [1, 2, 3, 4, 5] :=
  ⟨by decide, by decide, ChunkIt_concat [1, 2, 3, 4, 5] 2 (by decide) 6 (by decide)⟩

/-- C2: for a batch size b > 0 and a non-empty sequence of records, ChunkIt
returns batches of which every one except the last has length exactly b, and
the last has length len(rows) mod b when that is non-zero and b when b divides
len(rows). -/
theorem ChunkIt_batch_lengths {α : Type} (rows : List α) (b : Int) (hb : 0 < b)
    (hne : rows ≠ []) (fuel : Nat) (hfuel : rows.length < fuel) :
    ∃ batches last, ChunkIt fuel rows b = .returns batches ∧
      (∀ x ∈ batches.dropLast, (x.length : Int) = b) ∧
      batches.getLast? = some last ∧
      (last.length : Int) =
        if (rows.length : Int) % b = 0 then b else (rows.length : Int) % b := by
  obtain ⟨m, rfl⟩ : ∃ m : Nat, b = (m : Int) := ⟨b.toNat, by omega⟩
  have hm : 0 < m := by omega
  have hpos : 0 < rows.length := List.length_pos.2 hne
  unfold ChunkIt
  simp only []
  by_cases hlen : (rows.length : Int) > (m : Int)
  · rw [if_pos hlen]
    obtain ⟨R, hR, -, hnil, hinit, hlast⟩ := chunkLoop_spec rows m hm fuel 0 [] (by omega)
    have hRne : R ≠ [] := fun h0 => by have := hnil.1 h0; omega
    obtain ⟨last, hl⟩ : ∃ last, R.getLast? = some last := by
      cases hg : R.getLast? with
      | none => exact absurd (List.getLast?_eq_none_iff.1 hg) hRne
      | some l => exact ⟨l, rfl⟩
    refine ⟨R, last, by simpa using hR, ?_, hl, ?_⟩
    · intro x hx; exact_mod_cast hinit x hx
    · have h1 := hlast last hl
      rw [Nat.sub_zero] at h1
      by_cases hmod : rows.length % m = 0
      · rw [if_pos hmod] at h1
        rw [if_pos (by exact_mod_cast hmod)]; exact_mod_cast h1
      · rw [if_neg hmod] at h1
        rw [if_neg (by exact_mod_cast hmod)]; exact_mod_cast h1
  · rw [if_neg hlen]
    refine ⟨[rows], rows, rfl, by simp, rfl, ?_⟩
    by_cases heq : rows.length = m
    · rw [heq]; simp
    · have hlt : rows.length < m := by omega
      have e : (rows.length : Int) % (m : Int) = (rows.length : Int) := by
        exact_mod_cast Nat.mod_eq_of_lt hlt
      rw [e, if_neg (by omega)]

/-- Witness of C2: five records in batches of two give lengths 2, 2, 1. -/
theorem ChunkIt_batch_lengths_witness :
    (0 : Int) < 2 ∧ [1, 2, 3, 4, 5] ≠ [] ∧ [1, 2, 3, 4, 5].length < 6 ∧
      ∃ batches last, ChunkIt 6 [1, 2, 3, 4, 5] 2 = .returns batches ∧
        (∀ x ∈ batches.dropLast, (x.length : Int) = 2) ∧
        batches.getLast? = some last ∧
        (last.length : Int) =
          if ([1, 2, 3, 4, 5].length : Int) % 2 = 0 then 2
          else ([1, 2, 3, 4, 5].length : Int) % 2 :=
  ⟨by decide, by decide, by decide,
    ChunkIt_batch_lengths [1, 2, 3, 4, 5] 2 (by decide) (by decide) 6 (by decide)⟩

/-! ## Strings: Index, Split, Join -/

theorem isPrefixOf_single (c x : Char) (xs : GoString) :
    List.isPrefixOf [c] (x :: xs) = (c == x) := by
  simp [List.isPrefixOf]

theorem indexFrom_fresh (c : Char) :
    ∀ (s : GoString) (i : Nat), c ∉ s → indexFrom [c] s i = none := by
  intro s
  induction s with
  | nil => intro i _; simp [indexFrom]
  | cons x xs ih =>
    intro i h
    have hx : c ≠ x := fun e => h (e ▸ List.mem_cons_self _ _)
    have hxs : c ∉ xs := fun e => h (List.mem_cons_of_mem _ e)
    rw [indexFrom, isPrefixOf_single]
    simp [hx, ih (i + 1) hxs]

theorem indexFrom_first (c : Char) (rest : GoString) :
    ∀ (pre : GoString) (i : Nat), c ∉ pre →
      indexFrom [c] (pre ++ c :: rest) i = some (i + pre.length) := by
  intro pre
  induction pre with
  | nil => intro i _; simp [indexFrom, isPrefixOf_single]
  | cons x xs ih =>
    intro i h
    have hx : c ≠ x := fun e => h (e ▸ List.mem_cons_self _ _)
    have hxs : c ∉ xs := fun e => h (List.mem_cons_of_mem _ e)
    rw [List.cons_append, indexFrom, isPrefixOf_single]
    simp [hx, ih (i + 1) hxs]
    omega

theorem Index_first (c : Char) (pre rest : GoString) (h : c ∉ pre) :
    Index (pre ++ c :: rest) [c] = (pre.length : Int) := by
  unfold Index
  rw [indexFrom_first c rest pre 0 h]
  simp

theorem Index_fresh (c : Char) (s : GoString) (h : c ∉ s) : Index s [c] = -1 := by
  unfold Index
  rw [indexFrom_fresh c s 0 h]

theorem splitFrom_single_length (c : Char) :
    ∀ (s piece : GoString), (splitFrom [c] 0 piece s).length = s.count c + 1 := by
  intro s
  induction s with
  | nil => intro piece; simp [splitFrom]
  | cons x xs ih =>
    intro piece
    rw [splitFrom, isPrefixOf_single]
    by_cases hx : c = x
    · subst hx
      simp [ih]
    · have hx2 : ¬ x = c := fun e => hx e.symm
      simp [hx, ih, List.count_cons, hx2]

theorem Split_single_length (c : Char) (s : GoString) :
    (Split s [c]).length = s.count c + 1 :=
  splitFrom_single_length c s []

theorem count_removeSpaces (c : Char) (hc : c ≠ ' ') (s : GoString) :
    (removeSpaces s).count c = s.count c := by
  unfold removeSpaces
  induction s with
  | nil => rfl
  | cons x xs ih =>
    by_cases hx : x = ' '
    · subst hx
      have : ¬ (' ' : Char) = c := fun e => hc e.symm
      simp [List.filter_cons, List.count_cons, this, ih]
    · simp [List.filter_cons, hx, List.count_cons, ih]

/-! ## Placeholder derivation -/

theorem slice_middle {α : Type} (pre mid post : List α) :
    slice (pre ++ mid ++ post) (pre.length : Int) ((pre.length : Int) + (mid.length : Int)) =
      some mid := by
  unfold slice
  rw [if_pos (by simp)]
  have e : ((pre.length : Int) + (mid.length : Int)).toNat - (pre.length : Int).toNat =
      mid.length := by omega
  rw [e]
  simp [List.append_assoc]

theorem extractQueryColumns_list (pre list post : GoString)
    (hopen : '(' ∉ pre) (hclose : ')' ∉ pre) (hlist : ')' ∉ list) :
    extractQueryColumns (pre ++ "(".toList ++ list ++ ")".toList ++ post) =
      .returns (Split (removeSpaces list) ",".toList) := by
  have e1 : pre ++ "(".toList ++ list ++ ")".toList ++ post =
      pre ++ '(' :: (list ++ ')' :: post) := by
    show pre ++ ['('] ++ list ++ [')'] ++ post = _
    simp
  have e2 : pre ++ "(".toList ++ list ++ ")".toList ++ post =
      (pre ++ '(' :: list) ++ ')' :: post := by
    show pre ++ ['('] ++ list ++ [')'] ++ post = _
    simp
  have e3 : pre ++ "(".toList ++ list ++ ")".toList ++ post =
      (pre ++ ['(']) ++ list ++ (')' :: post) := by
    show pre ++ ['('] ++ list ++ [')'] ++ post = _
    simp
  have hfresh : ')' ∉ pre ++ '(' :: list := by
    simp only [List.mem_append, List.mem_cons, not_or]
    exact ⟨hclose, by decide, hlist⟩
  have i1 : Index (pre ++ "(".toList ++ list ++ ")".toList ++ post) "(".toList =
      (pre.length : Int) := by
    rw [e1]; exact Index_first '(' pre _ hopen
  have i2 : Index (pre ++ "(".toList ++ list ++ ")".toList ++ post) ")".toList =
      ((pre ++ ['(']).length : Int) + (list.length : Int) := by
    rw [e2]
    show Index _ [')'] = _
    rw [Index_first ')' (pre ++ '(' :: list) post hfresh]
    simp; omega
  unfold extractQueryColumns
  simp only []
  rw [i1, i2]
  have e4 : (pre.length : Int) + 1 = ((pre ++ ['(']).length : Int) := by simp
  rw [e4, e3, slice_middle]

theorem map_placeholderAt (custom : List GoString) :
    (List.range custom.length).map (placeholderAt custom) =
      custom.map (fun t => if t = [] then "?".toList else t) := by
  apply List.ext_getElem
  · simp
  · intro i h1 h2
    have hi : i < custom.length := by simpa using h1
    simp only [List.getElem_map, List.getElem_range, placeholderAt]
    rw [List.getD_eq_getElem _ _ hi]
    by_cases h0 : custom[i] = []
    · simp [h0]
    · have : 0 < (custom[i]).length := List.length_pos.2 h0
      simp [h0, hi, this]

theorem customPlaceholders_length (shape : List (Option GoString)) :
    (customPlaceholders shape).length = shape.length := by
  simp [customPlaceholders]

/-- C3: when the first "(" and the first ")" of the template enclose a list
with n comma-separated columns (n - 1 commas, spaces immaterial) and the record
has n fields, createPlaceholder returns without error the field count n and
the text "(" + t_0 + "," + ... + "," + t_{n-1} + ")", where t_i is the override
customPlaceholders finds for field i when that is non-empty, and "?" otherwise. -/
theorem createPlaceholder_tokens {V : Type} (pre list post : GoString) (a : Record V)
    (hopen : '(' ∉ pre) (hclose : ')' ∉ pre) (hlist : ')' ∉ list)
    (hcols : list.count ',' + 1 = a.length) :
    createPlaceholder (pre ++ "(".toList ++ list ++ ")".toList ++ post) a =
      .returns
        ("(".toList ++
            Join ((customPlaceholders a.shape).map
              (fun t => if t = [] then "?".toList else t)) ",".toList ++
          ")".toList,
          (a.length : Int), none) := by
  unfold createPlaceholder
  rw [extractQueryColumns_list pre list post hopen hclose hlist]
  have hlen : (Split (removeSpaces list) ",".toList).length = a.length := by
    show (Split (removeSpaces list) [',']).length = _
    rw [Split_single_length, count_removeSpaces _ (by decide), hcols]
  simp only []
  rw [if_neg (not_not.2 hlen)]
  have hc : (customPlaceholders a.shape).length = a.length := by
    rw [customPlaceholders_length]; simp [Record.shape]
  rw [← hc, map_placeholderAt]

/-- Witness of C3: columns (a, b, c) with a 3-field record give "(?,?,?)" and
count 3 without overrides, and "(?,custom(?),?)" when the second field carries
the override custom(?). -/
theorem createPlaceholder_tokens_witness :
    createPlaceholder "insert into t (a, b, c) values (1,2,3)".toList
        ([⟨none, 1⟩, ⟨none, 2⟩, ⟨none, 3⟩] : Record Nat) =
      .returns ("(?,?,?)".toList, 3, none) ∧
    createPlaceholder "insert into t (a, b, c) values (1,2,3)".toList
        ([⟨none, 1⟩, ⟨some "placeholder:custom(?)".toList, 2⟩, ⟨none, 3⟩] : Record Nat) =
      .returns ("(?,custom(?),?)".toList, 3, none) :=
  ⟨createPlaceholder_tokens "insert into t ".toList "a, b, c".toList
      " values (1,2,3)".toList [⟨none, 1⟩, ⟨none, 2⟩, ⟨none, 3⟩]
      (by decide) (by decide) (by decide) (by decide),
    createPlaceholder_tokens "insert into t ".toList "a, b, c".toList
      " values (1,2,3)".toList
      [⟨none, 1⟩, ⟨some "placeholder:custom(?)".toList, 2⟩, ⟨none, 3⟩]
      (by decide) (by decide) (by decide) (by decide)⟩

theorem createPlaceholder_error {V : Type} (query : GoString) (a : Record V)
    (p : GoString) (c : Int) (e : GoError)
    (h : createPlaceholder query a = .returns (p, c, some e)) :
    p = [] ∧ c = 0 ∧ e = shapeMismatch ∧
      ∃ columns, extractQueryColumns query = .returns columns ∧
        columns.length ≠ a.length := by
  unfold createPlaceholder at h
  cases hx : extractQueryColumns query with
  | crash => rw [hx] at h; simp at h
  | outOfFuel => rw [hx] at h; simp at h
  | returns columns =>
    rw [hx] at h
    simp only [] at h
    by_cases hlen : columns.length ≠ a.length
    · rw [if_pos hlen] at h
      injection h with h
      injection h with h1 h
      injection h with h2 h
      injection h with h3
      exact ⟨h1.symm, h2.symm, h3.symm, columns, rfl, hlen⟩
    · rw [if_neg hlen] at h
      injection h with h
      injection h with h1 h
      injection h with h2 h
      exact absurd h (by simp)

theorem CreateStatement_of_error {V : Type} (tbl : Char → Char) (query : GoString)
    (a : Record V) (rest : List (Record V)) (p : GoString) (c : Int) (e : GoError)
    (h : createPlaceholder query a = .returns (p, c, some e)) :
    CreateStatement tbl query (a :: rest) [] 0 = .returns ([], [], some e) := by
  unfold CreateStatement derivedPlaceholder
  rw [if_pos ⟨rfl, rfl⟩]
  simp only []
  rw [h]

/-- C4: createPlaceholder reports the shape-mismatch error ("Structure type
doesn't match column count", with empty text and count 0) exactly when
extractQueryColumns returns a column list whose length differs from the
record's field count; it reports no other error; and whenever it reports an
error, CreateStatement called without a supplied placeholder (empty text,
count 0) returns that error with an empty statement and no arguments. -/
theorem createPlaceholder_mismatch {V : Type} (tbl : Char → Char) (query : GoString)
    (a : Record V) (rest : List (Record V)) :
    (createPlaceholder query a = .returns ([], 0, some shapeMismatch) ↔
      ∃ columns, extractQueryColumns query = .returns columns ∧
        columns.length ≠ a.length) ∧
    (∀ p c e, createPlaceholder query a = .returns (p, c, some e) →
      p = [] ∧ c = 0 ∧ e = shapeMismatch ∧
        CreateStatement tbl query (a :: rest) [] 0 = .returns ([], [], some e)) := by
  refine ⟨⟨fun h => (createPlaceholder_error query a _ _ _ h).2.2.2, ?_⟩, ?_⟩
  · rintro ⟨columns, hx, hlen⟩
    unfold createPlaceholder
    rw [hx]
    simp only []
    rw [if_pos hlen]
  · intro p c e h
    obtain ⟨h1, h2, h3, -⟩ := createPlaceholder_error query a p c e h
    exact ⟨h1, h2, h3, CreateStatement_of_error tbl query a rest p c e h⟩

/-- Witness of C4: a 2-field record against the columns (a, b, c). -/
theorem createPlaceholder_mismatch_witness :
    createPlaceholder "insert into t (a, b, c) values (1,2,3)".toList
        ([⟨none, 1⟩, ⟨none, 2⟩] : Record Nat) =
      .returns ([], 0, some "Structure type doesn't match column count".toList) ∧
    CreateStatement id "insert into t (a, b, c) values (1,2,3)".toList
        ([[⟨none, 1⟩, ⟨none, 2⟩], [⟨none, 3⟩, ⟨none, 4⟩]] : List (Record Nat)) [] 0 =
      .returns ([], [], some "Structure type doesn't match column count".toList) :=
  have h := createPlaceholder_mismatch id "insert into t (a, b, c) values (1,2,3)".toList
    ([⟨none, 1⟩, ⟨none, 2⟩] : Record Nat) [[⟨none, 3⟩, ⟨none, 4⟩]]
  have h1 := h.1.2 ⟨["a".toList, "b".toList, "c".toList], by decide, by decide⟩
  ⟨h1, (h.2 _ _ _ h1).2.2.2⟩

/-! ## Statement assembly -/

theorem storeFields_fill {V : Type} :
    ∀ (vs : List V) (pre : List (Option V)) (k : Nat), vs.length ≤ k →
      storeFields (pre ++ List.replicate k none, pre.length) vs =
        some (pre ++ vs.map some ++ List.replicate (k - vs.length) none,
          pre.length + vs.length) := by
  intro vs
  induction vs with
  | nil => intro pre k _; simp [storeFields]
  | cons v vs ih =>
    intro pre k hk
    obtain ⟨j, rfl⟩ : ∃ j, k = j + 1 := ⟨k - 1, by simp at hk; omega⟩
    have hk1 : vs.length ≤ j := by simp at hk; omega
    rw [storeFields, if_pos (by simp)]
    have hset : (pre ++ List.replicate (j + 1) (none : Option V)).set pre.length (some v) =
        (pre ++ [some v]) ++ List.replicate j none := by
      rw [List.set_append_right _ _ (Nat.le_refl _)]
      simp [List.replicate_succ]
    have hlen : pre.length + 1 = (pre ++ [some v]).length := by simp
    rw [hset, hlen, ih (pre ++ [some v]) j hk1]
    simp
    omega

theorem storeRows_fill {V : Type} (c : Nat) :
    ∀ (rows : List (Record V)) (pre : List (Option V)) (k : Nat),
      (∀ r ∈ rows, r.length = c) → rows.length * c ≤ k →
      storeRows (pre ++ List.replicate k none, pre.length) rows =
        some (pre ++ (rows.map (fun r => r.map (fun f => some f.value))).flatten ++
            List.replicate (k - rows.length * c) none,
          pre.length + rows.length * c) := by
  intro rows
  induction rows with
  | nil => intro pre k _ _; simp [storeRows]
  | cons r rows ih =>
    intro pre k hall hk
    have hr : r.length = c := hall r (List.mem_cons_self _ _)
    have hrest : ∀ x ∈ rows, x.length = c := fun x hx => hall x (List.mem_cons_of_mem _ hx)
    have hk0 : (r.map (fun f => f.value)).length ≤ k := by
      simp only [List.length_map, List.length_cons] at hk ⊢
      rw [hr]; nlinarith
    have hk1 : rows.length * c ≤ k - c := by
      simp only [List.length_cons] at hk
      have : (rows.length + 1) * c = rows.length * c + c := by ring
      omega
    rw [storeRows, storeFields_fill _ pre k hk0]
    simp only [List.length_map, hr]
    have hlen : pre.length + c = (pre ++ (r.map (fun f => f.value)).map some).length := by
      simp [hr]
    rw [hlen, ih _ (k - c) hrest hk1]
    simp only [List.length_append, List.length_map, hr, List.map_cons, List.flatten_cons,
      List.length_cons, List.map_map, List.append_assoc]
    have e1 : k - c - rows.length * c = k - (rows.length + 1) * c := by
      have : (rows.length + 1) * c = rows.length * c + c := by ring
      omega
    have e2 : pre.length + c + rows.length * c = pre.length + (rows.length + 1) * c := by
      ring
    rw [e1, e2]
    rfl

theorem CreateStatement_inv {V : Type} (tbl : Char → Char) (query : GoString)
    (rows : List (Record V)) (p : GoString) (count : Int) (st : GoString)
    (args : List (Option V))
    (h : CreateStatement tbl query rows p count = .returns (st, args, none)) :
    ∃ q c, derivedPlaceholder query rows p count = .returns (q, c, none) ∧
      st = queryValues tbl query ++ " ".toList ++
        Join (List.replicate rows.length q) ",".toList := by
  unfold CreateStatement at h
  cases hd : derivedPlaceholder query rows p count with
  | crash => rw [hd] at h; simp at h
  | outOfFuel => rw [hd] at h; simp at h
  | returns r =>
    obtain ⟨q, c, e⟩ := r
    rw [hd] at h
    cases e with
    | some err => simp at h
    | none =>
      simp only [] at h
      refine ⟨q, c, rfl, ?_⟩
      by_cases hs : (rows.length : Int) * c < 0
      · rw [if_pos hs] at h; simp at h
      · rw [if_neg hs] at h
        cases hst : storeRows (List.replicate ((rows.length : Int) * c).toNat none, 0) rows with
        | none => rw [hst] at h; simp at h
        | some r2 =>
          obtain ⟨a2, n2⟩ := r2
          rw [hst] at h
          simp only [] at h
          injection h with h
          injection h with h1 h
          rw [← h1, List.map_const']

theorem indexFrom_eq_some (sub : GoString) :
    ∀ (s : GoString) (i n : Nat), n ≤ s.length → sub <+: s.drop n →
      (∀ k, k < n → ¬ sub <+: s.drop k) → indexFrom sub s i = some (i + n) := by
  intro s
  induction s with
  | nil =>
    intro i n hn hpre _
    have hn0 : n = 0 := by simpa using hn
    subst hn0
    have : sub = [] := by simpa using hpre
    simp [indexFrom, this]
  | cons x xs ih =>
    intro i n hn hpre hfirst
    cases n with
    | zero =>
      have : sub.isPrefixOf (x :: xs) = true := List.isPrefixOf_iff_prefix.2 (by simpa using hpre)
      simp [indexFrom, this]
    | succ j =>
      have h0 : ¬ sub <+: x :: xs := by simpa using hfirst 0 (Nat.succ_pos _)
      have hb : sub.isPrefixOf (x :: xs) = false := by
        cases hc : sub.isPrefixOf (x :: xs) with
        | false => rfl
        | true => exact absurd (List.isPrefixOf_iff_prefix.1 hc) h0
      rw [indexFrom, hb]
      simp only [Bool.false_eq_true, if_false]
      rw [ih (i + 1) j (by simpa using hn) (by simpa using hpre)
        (fun k hk => by simpa using hfirst (k + 1) (by omega))]
      congr 1; omega

theorem indexFrom_eq_none (sub : GoString) :
    ∀ (s : GoString) (i : Nat), (∀ k, k ≤ s.length → ¬ sub <+: s.drop k) →
      indexFrom sub s i = none := by
  intro s
  induction s with
  | nil =>
    intro i h
    have : sub ≠ [] := fun e => by simpa [e] using h 0 (Nat.le_refl _)
    simp [indexFrom, this]
  | cons x xs ih =>
    intro i h
    have h0 : ¬ sub <+: x :: xs := by simpa using h 0 (Nat.zero_le _)
    have hb : sub.isPrefixOf (x :: xs) = false := by
      cases hc : sub.isPrefixOf (x :: xs) with
      | false => rfl
      | true => exact absurd (List.isPrefixOf_iff_prefix.1 hc) h0
    rw [indexFrom, hb]
    simp only [Bool.false_eq_true, if_false]
    exact ih (i + 1) (fun k hk => by simpa using h (k + 1) (by simpa using hk))

theorem queryValues_cut (tbl : Char → Char) (query before after : GoString)
    (hsplit : ToLower tbl query = before ++ "values".toList ++ after)
    (hne : before ≠ [])
    (hfirst : ∀ k, k < before.length → ¬ "values".toList <+: (ToLower tbl query).drop k) :
    queryValues tbl query = before ++ " values".toList := by
  have hidx : Index (ToLower tbl query) "values".toList = (before.length : Int) := by
    unfold Index
    rw [indexFrom_eq_some "values".toList (ToLower tbl query) 0 before.length
      (by rw [hsplit]; simp) (by rw [hsplit]; simp [List.append_assoc]) hfirst]
    simp
  have hpos : 0 < before.length := List.length_pos.2 hne
  unfold queryValues
  simp only []
  rw [hidx, if_pos (by omega)]
  rw [hsplit]
  simp [List.append_assoc]

theorem queryValues_whole (tbl : Char → Char) (query : GoString)
    (h : (∀ k, k ≤ (ToLower tbl query).length →
          ¬ "values".toList <+: (ToLower tbl query).drop k) ∨
        "values".toList <+: ToLower tbl query) :
    queryValues tbl query = ToLower tbl query ++ " values".toList := by
  have hidx : ¬ Index (ToLower tbl query) "values".toList > 0 := by
    unfold Index
    rcases h with h | h
    · rw [indexFrom_eq_none _ _ 0 h]; simp
    · rw [indexFrom_eq_some "values".toList (ToLower tbl query) 0 0 (Nat.zero_le _)
        (by simpa using h) (fun k hk => absurd hk (Nat.not_lt_zero k))]
      simp
  unfold queryValues
  simp only []
  rw [if_neg hidx]

theorem flatten_values_length {V : Type} (n : Nat) :
    ∀ rows : List (Record V), (∀ r ∈ rows, r.length = n) →
      (rows.map (fun r => r.map (fun f => some f.value))).flatten.length =
        rows.length * n := by
  intro rows
  induction rows with
  | nil => intro _; simp
  | cons r rows ih =>
    intro hall
    have hr : r.length = n := hall r (List.mem_cons_self _ _)
    have := ih (fun x hx => hall x (List.mem_cons_of_mem _ hx))
    simp only [List.map_cons, List.flatten_cons, List.length_append, List.length_map,
      List.length_cons, this, hr]
    ring

/-- C5: whenever CreateStatement returns a statement without error, that
statement ends with "values " followed by one copy per record of the per-row
placeholder text in force (the supplied one, or the one derived from the
first record), joined by ",". -/
theorem CreateStatement_values_suffix {V : Type} (tbl : Char → Char) (query : GoString)
    (rows : List (Record V)) (p : GoString) (count : Int) (q : GoString) (c : Int)
    (st : GoString) (args : List (Option V))
    (hd : derivedPlaceholder query rows p count = .returns (q, c, none))
    (h : CreateStatement tbl query rows p count = .returns (st, args, none)) :
    ("values ".toList ++ Join (List.replicate rows.length q) ",".toList) <:+ st := by
  obtain ⟨q1, c1, hd1, hst⟩ := CreateStatement_inv tbl query rows p count st args h
  rw [hd] at hd1
  injection hd1 with hd1
  injection hd1 with hq _
  subst hq
  rw [hst]
  unfold queryValues
  simp only []
  refine ⟨(if Index (ToLower tbl query) "values".toList > 0 then
      (ToLower tbl query).take (Index (ToLower tbl query) "values".toList).toNat
    else ToLower tbl query) ++ [' '], ?_⟩
  show _ ++ [' '] ++ (['v', 'a', 'l', 'u', 'e', 's', ' '] ++ _) =
    _ ++ [' ', 'v', 'a', 'l', 'u', 'e', 's'] ++ [' '] ++ _
  simp

/-- Witness of C5: the template "insert into t (a,b) values (x)" with two
2-field records without overrides ends with "values (?,?),(?,?)". -/
theorem CreateStatement_values_suffix_witness :
    derivedPlaceholder "insert into t (a,b) values (x)".toList
        ([[⟨none, 1⟩, ⟨none, 2⟩], [⟨none, 3⟩, ⟨none, 4⟩]] : List (Record Nat)) [] 0 =
      .returns ("(?,?)".toList, 2, none) ∧
    CreateStatement id "insert into t (a,b) values (x)".toList
        ([[⟨none, 1⟩, ⟨none, 2⟩], [⟨none, 3⟩, ⟨none, 4⟩]] : List (Record Nat)) [] 0 =
      .returns ("insert into t (a,b)  values (?,?),(?,?)".toList,
        [some 1, some 2, some 3, some 4], none) ∧
    "values (?,?),(?,?)".toList <:+ "insert into t (a,b)  values (?,?),(?,?)".toList :=
  ⟨by decide, by decide,
    CreateStatement_values_suffix id "insert into t (a,b) values (x)".toList
      ([[⟨none, 1⟩, ⟨none, 2⟩], [⟨none, 3⟩, ⟨none, 4⟩]] : List (Record Nat)) [] 0
      "(?,?)".toList 2 _ [some 1, some 2, some 3, some 4] (by decide) (by decide)⟩

/-- C6: when every record has exactly `c` fields, `c` being the count in force
(the supplied one, or the one derived from the first record), CreateStatement
returns without error, its argument list is the concatenation, in record
order, of each record's field values in declared order, and the length of
that list is len(rows) * c. -/
theorem CreateStatement_args {V : Type} (tbl : Char → Char) (query : GoString)
    (rows : List (Record V)) (p : GoString) (count : Int) (q : GoString) (c : Int)
    (hd : derivedPlaceholder query rows p count = .returns (q, c, none))
    (hall : ∀ r ∈ rows, (r.length : Int) = c) :
    (∃ st, CreateStatement tbl query rows p count =
      .returns (st, (rows.map (fun r => r.map (fun f => some f.value))).flatten, none)) ∧
    (((rows.map (fun r => r.map (fun f => some f.value))).flatten.length : Int) =
      (rows.length : Int) * c) := by
  unfold CreateStatement
  rw [hd]
  simp only []
  cases rows with
  | nil => simp [storeRows]
  | cons r rows =>
    have hc : (r.length : Int) = c := hall r (List.mem_cons_self _ _)
    have hall1 : ∀ x ∈ r :: rows, x.length = r.length := fun x hx => by
      have := hall x hx
      omega
    have hfill := storeRows_fill r.length (r :: rows) [] ((r :: rows).length * r.length)
      hall1 (Nat.le_refl _)
    have hsz : (((r :: rows).length : Int) * c).toNat = (r :: rows).length * r.length := by
      rw [← hc, ← Int.natCast_mul, Int.toNat_ofNat]
    have hnn : ¬ ((r :: rows).length : Int) * c < 0 := by
      rw [← hc, ← Int.natCast_mul]; omega
    rw [if_neg hnn, hsz]
    simp only [List.nil_append, List.length_nil, Nat.sub_self, List.replicate_zero,
      List.append_nil, Nat.zero_add] at hfill
    rw [hfill]
    refine ⟨⟨_, rfl⟩, ?_⟩
    rw [flatten_values_length r.length (r :: rows) hall1, ← hc]
    push_cast
    rfl

/-- Witness of C6: two 2-field records give the four values in order. -/
theorem CreateStatement_args_witness :
    (∃ st, CreateStatement id "insert into t (a,b) values (x)".toList
        ([[⟨none, 1⟩, ⟨none, 2⟩], [⟨none, 3⟩, ⟨none, 4⟩]] : List (Record Nat)) [] 0 =
      .returns (st, [some 1, some 2, some 3, some 4], none)) ∧
    (([some 1, some 2, some 3, some 4] : List (Option Nat)).length : Int) = 2 * 2 :=
  CreateStatement_args id "insert into t (a,b) values (x)".toList
    ([[⟨none, 1⟩, ⟨none, 2⟩], [⟨none, 3⟩, ⟨none, 4⟩]] : List (Record Nat)) [] 0
    "(?,?)".toList 2 (by decide) (by decide)

/-- C7, as stated, fails: the text kept in front of " values " is cut from the
lower-cased template, not from the template's own text (first part: an
upper-case template comes back in lower case), and a template that begins
with the keyword is not cut at all (second part). -/
theorem CreateStatement_prefix_counterexample :
    (CreateStatement id "INSERT INTO t (a,b) VALUES (x)".toList
        ([[⟨none, 1⟩, ⟨none, 2⟩], [⟨none, 3⟩, ⟨none, 4⟩]] : List (Record Nat)) [] 0 =
      .returns ("insert into t (a,b)  values (?,?),(?,?)".toList,
        [some 1, some 2, some 3, some 4], none) ∧
     "insert into t (a,b)  values (?,?),(?,?)".toList ≠
      "INSERT INTO t (a,b) ".toList ++ " values ".toList ++
        Join ["(?,?)".toList, "(?,?)".toList] ",".toList) ∧
    (CreateStatement id "values (a,b)".toList
        ([[⟨none, 1⟩, ⟨none, 2⟩], [⟨none, 3⟩, ⟨none, 4⟩]] : List (Record Nat)) [] 0 =
      .returns ("values (a,b) values (?,?),(?,?)".toList,
        [some 1, some 2, some 3, some 4], none) ∧
     "values (a,b) values (?,?),(?,?)".toList ≠
      "".toList ++ " values ".toList ++
        Join ["(?,?)".toList, "(?,?)".toList] ",".toList) := by
  decide

/-- C7, amended: whenever CreateStatement returns a statement without error,
the statement is prefix + " values " + the per-row placeholder in force
repeated once per record and joined by ",", where prefix is cut from the
lower-cased template: it is the text in front of the first occurrence of
"values" there when that occurrence is not at the very start, and the whole
lower-cased template when "values" does not occur or stands at the start. -/
theorem CreateStatement_statement {V : Type} (tbl : Char → Char) (query : GoString)
    (rows : List (Record V)) (p : GoString) (count : Int) (q : GoString) (c : Int)
    (st : GoString) (args : List (Option V))
    (hd : derivedPlaceholder query rows p count = .returns (q, c, none))
    (h : CreateStatement tbl query rows p count = .returns (st, args, none)) :
    (∀ before after : GoString,
      ToLower tbl query = before ++ "values".toList ++ after → before ≠ [] →
      (∀ k, k < before.length → ¬ "values".toList <+: (ToLower tbl query).drop k) →
      st = before ++ " values ".toList ++ Join (List.replicate rows.length q) ",".toList) ∧
    ((∀ k, k ≤ (ToLower tbl query).length →
          ¬ "values".toList <+: (ToLower tbl query).drop k) ∨
        "values".toList <+: ToLower tbl query →
      st = ToLower tbl query ++ " values ".toList ++
        Join (List.replicate rows.length q) ",".toList) := by
  obtain ⟨q1, c1, hd1, hst⟩ := CreateStatement_inv tbl query rows p count st args h
  rw [hd] at hd1
  injection hd1 with hd1
  injection hd1 with hq _
  subst hq
  have hsp : ∀ x : GoString, x ++ " values".toList ++ " ".toList = x ++ " values ".toList := by
    intro x
    show x ++ [' ', 'v', 'a', 'l', 'u', 'e', 's'] ++ [' '] =
      x ++ [' ', 'v', 'a', 'l', 'u', 'e', 's', ' ']
    simp
  constructor
  · intro before after hsplit hne hfirst
    rw [hst, queryValues_cut tbl query before after hsplit hne hfirst, hsp]
  · intro hw
    rw [hst, queryValues_whole tbl query hw, hsp]

/-- Witness of C7 amended: an upper-case template with two 2-field records. -/
theorem CreateStatement_statement_witness :
    CreateStatement id "INSERT INTO t (a,b) VALUES (x)".toList
        ([[⟨none, 1⟩, ⟨none, 2⟩], [⟨none, 3⟩, ⟨none, 4⟩]] : List (Record Nat)) [] 0 =
      .returns ("insert into t (a,b)  values (?,?),(?,?)".toList,
        [some 1, some 2, some 3, some 4], none) ∧
    "insert into t (a,b)  values (?,?),(?,?)".toList =
      "insert into t (a,b) ".toList ++ " values ".toList ++
        Join (List.replicate 2 "(?,?)".toList) ",".toList :=
  ⟨by decide,
    (CreateStatement_statement id "INSERT INTO t (a,b) VALUES (x)".toList
      ([[⟨none, 1⟩, ⟨none, 2⟩], [⟨none, 3⟩, ⟨none, 4⟩]] : List (Record Nat)) [] 0
      "(?,?)".toList 2 _ [some 1, some 2, some 3, some 4] (by decide) (by decide)).1
      "insert into t (a,b) ".toList " (x)".toList (by decide) (by decide) (by decide)⟩

/-! ## Operator fragments -/

theorem token_cases (p : GoString) : (p.length > 0) ↔ p ≠ [] := by
  cases p <;> simp

theorem foldl_append_const {α β : Type} (t : α) (l : List β) :
    ∀ init : List α, l.foldl (fun acc _ => acc ++ [t]) init = init ++ List.replicate l.length t := by
  induction l with
  | nil => intro init; simp
  | cons x xs ih =>
    intro init
    rw [List.foldl_cons, ih]
    simp [List.replicate_succ]

theorem inTokens_eq (k : Nat) (p : GoString) :
    inTokens (k : Int) p = List.replicate k (if p = [] then "?".toList else p) := by
  unfold inTokens
  by_cases hp : p = []
  · subst hp
    simp only [List.length_nil, gt_iff_lt, Nat.lt_irrefl, if_false, if_true, Int.toNat_ofNat]
    rw [foldl_append_const]; simp
  · have : p.length > 0 := (token_cases p).2 hp
    simp only [this, if_true, if_neg hp, Int.toNat_ofNat]
    rw [foldl_append_const]; simp

theorem orTerms_eq (m : OperatorMethods) (column : GoString) (k : Nat) (p : GoString) :
    orTerms m column (k : Int) p =
      List.replicate k (column ++ " ".toList ++
        (if p = [] then m.string .Equals ++ "?".toList else m.withPlaceholder .Equals p)) := by
  unfold orTerms
  by_cases hp : p = []
  · subst hp
    simp only [List.length_nil, gt_iff_lt, Nat.lt_irrefl, if_false, if_true, Int.toNat_ofNat]
    rw [foldl_append_const]; simp
  · have : p.length > 0 := (token_cases p).2 hp
    simp only [this, if_true, if_neg hp, Int.toNat_ofNat]
    rw [foldl_append_const]; simp

theorem foldl_set_const {α : Type} (t d : α) (n : Nat) :
    ∀ j, j ≤ n →
      (List.range j).foldl (fun (ors : List α) i => ors.set i t) (List.replicate n d) =
        List.replicate j t ++ List.replicate (n - j) d := by
  intro j
  induction j with
  | zero => intro _; simp
  | succ j ih =>
    intro hj
    rw [List.range_succ, List.foldl_append, ih (by omega)]
    simp only [List.foldl_cons, List.foldl_nil]
    have hlen : (List.replicate j t).length ≤ j := by simp
    rw [List.set_append_right _ _ hlen]
    obtain ⟨r, hr⟩ : ∃ r, n - j = r + 1 := ⟨n - j - 1, by omega⟩
    have hr2 : n - (j + 1) = r := by omega
    rw [hr, hr2]
    simp only [List.replicate_succ, List.length_replicate, Nat.sub_self, List.set_cons_zero]
    have e : List.replicate j t ++ [t] = t :: List.replicate j t := by
      rw [← List.replicate_succ', List.replicate_succ]
    calc List.replicate j t ++ t :: List.replicate r d
        = (List.replicate j t ++ [t]) ++ List.replicate r d := by simp
      _ = t :: List.replicate j t ++ List.replicate r d := by rw [e]

theorem likeTerms_eq (k : Nat) (p : GoString) :
    likeTerms (k : Int) p (List.replicate k []) =
      List.replicate k ("(".toList ++ (if p = [] then "?".toList else p) ++ ")".toList) := by
  unfold likeTerms
  by_cases hp : p = []
  · subst hp
    simp only [List.length_nil, gt_iff_lt, Nat.lt_irrefl, if_false, if_true, Int.toNat_ofNat]
    rw [foldl_set_const _ _ k k (Nat.le_refl _)]
    simp
  · have : p.length > 0 := (token_cases p).2 hp
    simp only [this, if_true, if_neg hp, Int.toNat_ofNat]
    rw [foldl_set_const _ _ k k (Nat.le_refl _)]
    simp

/-- C8: for the In operator, every column, every repeat count k ≥ 0 and every
custom placeholder, buildOperator returns the column unchanged and the
fragment "in (" + k copies of the token joined by "," + ")", the token being
the custom placeholder when it is non-empty and "?" otherwise; with k = 3 and
no custom token the fragment is "in (?,?,?)". -/
theorem buildOperator_in (m : OperatorMethods) (column : GoString) (k : Nat)
    (p : GoString) :
    buildOperator m column .In (k : Int) p =
      .returns (column,
        "in (".toList ++
          Join (List.replicate k (if p = [] then "?".toList else p)) ",".toList ++
          ")".toList) ∧
    buildOperator m column .In 3 [] = .returns (column, "in (?,?,?)".toList) := by
  constructor
  · unfold buildOperator
    simp only []
    rw [inTokens_eq]
  · rfl

/-- C9: for the Like operator, every column, every repeat count k ≥ 0 and
every custom placeholder, buildOperator returns the column unchanged and the
fragment "like " followed by k copies of "(" + token + ")" joined by " or ",
the token being the custom placeholder when it is non-empty and "?"
otherwise; with k = 2 and no custom token the fragment is "like (?) or (?)". -/
theorem buildOperator_like (m : OperatorMethods) (column : GoString) (k : Nat)
    (p : GoString) :
    buildOperator m column .Like (k : Int) p =
      .returns (column,
        "like ".toList ++
          Join (List.replicate k
            ("(".toList ++ (if p = [] then "?".toList else p) ++ ")".toList))
            " or ".toList) ∧
    buildOperator m column .Like 2 [] = .returns (column, "like (?) or (?)".toList) := by
  constructor
  · unfold buildOperator
    simp only []
    rw [if_neg (by omega), Int.toNat_ofNat, likeTerms_eq]
  · rfl

/-- C10: for the Or operator with repeat count k > 1 and any column c,
buildOperator returns the empty string as the column and the fragment "(" +
k equality terms joined by " or " + ")", each term being c, a space, and the
rendering of Equals (with the custom placeholder when one is given, else its
text followed by "?"); for c = "x", k = 2 and no custom placeholder the
fragment is "(x = ? or x = ?)" exactly when the text of Equals is "= ". -/
theorem buildOperator_or_many (m : OperatorMethods) (column : GoString) (k : Nat)
    (p : GoString) (hk : 1 < k) :
    buildOperator m column .Or (k : Int) p =
      .returns ([],
        "(".toList ++
          Join (List.replicate k (column ++ " ".toList ++
            (if p = [] then m.string .Equals ++ "?".toList
              else m.withPlaceholder .Equals p))) " or ".toList ++
          ")".toList) ∧
    (buildOperator m "x".toList .Or 2 [] = .returns ([], "(x = ? or x = ?)".toList) ↔
      m.string .Equals = "= ".toList) := by
  constructor
  · unfold buildOperator
    simp only []
    rw [if_neg (by omega), if_pos (by omega), orTerms_eq]
  · have h2 : buildOperator m "x".toList .Or 2 [] =
        .returns ([], '(' :: 'x' :: ' ' :: (m.string .Equals ++
          ('?' :: ' ' :: 'o' :: 'r' :: ' ' :: 'x' :: ' ' :: (m.string .Equals ++ ['?', ')'])))) := by
      unfold buildOperator
      simp only []
      rw [if_neg (by decide), if_pos (by decide)]
      have := orTerms_eq m "x".toList 2 []
      simp only [Nat.cast_ofNat] at this
      rw [this]
      show Outcome.returns (_, ['('] ++ Join (List.replicate 2 (['x'] ++ [' '] ++
        (m.string .Equals ++ ['?']))) [' ', 'o', 'r', ' '] ++ [')']) = _
      simp [List.replicate_succ, Join]
    rw [h2]
    constructor
    · intro h
      injection h with h
      injection h with _ h
      have h3 : m.string .Equals ++
          ('?' :: ' ' :: 'o' :: 'r' :: ' ' :: 'x' :: ' ' :: (m.string .Equals ++ ['?', ')'])) =
          ['=', ' '] ++ "? or x = ?)".toList := by
        have : "(x = ? or x = ?)".toList = '(' :: 'x' :: ' ' :: (['=', ' '] ++ "? or x = ?)".toList) :=
          rfl
        rw [this] at h
        injection h with _ h
        injection h with _ h
        injection h with _ h
      have hlen : (m.string .Equals).length = (['=', ' '] : GoString).length := by
        have := congrArg List.length h3
        simp at this
        simp
        omega
      exact (List.append_inj h3 hlen).1
    · intro h
      rw [h]
      rfl

/-- Witness of C10: with the text "= " for Equals, column "x" and two terms
give the empty column and the fragment "(x = ? or x = ?)". -/
theorem buildOperator_or_many_witness :
    (1 < 2) ∧
    buildOperator ⟨fun _ => "= ".toList, fun _ p => "= ".toList ++ p⟩ "x".toList .Or 2 [] =
      .returns ([], "(x = ? or x = ?)".toList) :=
  ⟨by decide,
    (buildOperator_or_many ⟨fun _ => "= ".toList, fun _ p => "= ".toList ++ p⟩
      "x".toList 2 [] (by decide)).1⟩

/-! ## Operator fragments: Or with one term or none -/

/-- C11: for every column and custom placeholder (empty or not), buildOperator
with operator Or and repeat count 1 returns the same pair as buildOperator
with operator Equals (whatever its repeat count): the column unchanged and the
rendering of Equals, with the custom placeholder when one is given and its
own text otherwise. -/
theorem buildOperator_or_one (m : OperatorMethods) (column p : GoString) (k : Int) :
    buildOperator m column .Or 1 p = buildOperator m column .Equals k p ∧
    buildOperator m column .Or 1 p =
      .returns (column,
        if p = [] then m.string .Equals else m.withPlaceholder .Equals p) := by
  by_cases hp : p = []
  · subst hp
    exact ⟨rfl, rfl⟩
  · have hlen : p.length > 0 := (token_cases p).2 hp
    constructor
    · unfold buildOperator
      simp only []
      rw [if_pos trivial]
    · unfold buildOperator
      simp only []
      rw [if_pos trivial, if_pos hlen, if_neg hp]

/-- C16, as stated, fails: with operator Or and repeat count 0 or -3
buildOperator returns the column and an empty fragment; there is no error. -/
theorem buildOperator_or_nonpositive_counterexample :
    buildOperator ⟨fun _ => "= ".toList, fun _ p => "= ".toList ++ p⟩
        "x".toList .Or 0 [] = .returns ("x".toList, []) ∧
    buildOperator ⟨fun _ => "= ".toList, fun _ p => "= ".toList ++ p⟩
        "x".toList .Or (-3) "f(?)".toList = .returns ("x".toList, []) := by
  decide

/-- C16, amended: buildOperator has no error result; with operator Or and a
repeat count ≤ 0 it returns, for every column and placeholder, the column
unchanged together with the empty fragment. -/
theorem buildOperator_or_nonpositive (m : OperatorMethods) (column p : GoString)
    (k : Int) (hk : k ≤ 0) :
    buildOperator m column .Or k p = .returns (column, []) := by
  unfold buildOperator
  simp only []
  rw [if_neg (by omega), if_neg (by omega)]

/-- Witness of C16 amended: repeat count 0. -/
theorem buildOperator_or_nonpositive_witness :
    (0 : Int) ≤ 0 ∧
    buildOperator ⟨fun _ => "= ".toList, fun _ p => "= ".toList ++ p⟩
        "x".toList .Or 0 [] = .returns ("x".toList, []) :=
  ⟨by decide, buildOperator_or_nonpositive _ _ _ 0 (by decide)⟩

/-! ## ChunkIt: batch sizes that are not positive -/

theorem chunkLoop_zero {α : Type} (rows : List α) (hne : rows ≠ []) :
    ∀ (fuel : Nat) (result : List (List α)), chunkLoop rows 0 fuel 0 result = .outOfFuel := by
  have hpos : 0 < rows.length := List.length_pos.2 hne
  intro fuel
  induction fuel with
  | zero => intro result; rfl
  | succ fuel ih =>
    intro result
    unfold chunkLoop
    rw [if_pos (by omega)]
    simp only [Int.add_zero]
    rw [if_neg (by omega)]
    have hs : slice rows 0 0 = some [] := by
      unfold slice
      rw [if_pos (by omega)]
      simp
    rw [hs]
    exact ih _

theorem chunkLoop_negative {α : Type} (rows : List α) (hne : rows ≠ []) (b : Int)
    (hb : b < 0) (fuel : Nat) (result : List (List α)) :
    chunkLoop rows b (fuel + 1) 0 result = .crash := by
  have hpos : 0 < rows.length := List.length_pos.2 hne
  unfold chunkLoop
  rw [if_pos (by omega)]
  simp only [Int.zero_add]
  rw [if_neg (by omega)]
  have hs : slice rows 0 b = none := by
    unfold slice
    rw [if_neg (by omega)]
  rw [hs]

/-- C15, as stated, fails: with batch size 0 an empty sequence gives one
empty batch, with a negative batch size a non-empty sequence stops in a slice
bounds panic, and with batch size 0 a non-empty sequence keeps the loop going
whatever the fuel; no error is reported in any of them. -/
theorem ChunkIt_nonpositive_counterexample :
    ChunkIt 5 ([] : List Nat) 0 = .returns [[]] ∧
    ChunkIt 5 [1, 2, 3] (-1) = .crash ∧
    (∀ fuel, ChunkIt fuel [1, 2, 3] 0 = .outOfFuel) := by
  refine ⟨by decide, by decide, fun fuel => ?_⟩
  unfold ChunkIt
  simp only []
  rw [if_pos (by decide)]
  exact chunkLoop_zero _ (by decide) fuel []

/-- C15, amended: ChunkIt has no error result and does not check the batch
size. With a batch size ≤ 0 it returns only for an empty record sequence (one
empty batch when the size is 0, no batch when it is negative); for a non-empty
record sequence it produces no batches: the loop does not end when the size is
0 and the first slice is out of bounds when it is negative. -/
theorem ChunkIt_nonpositive {α : Type} (rows : List α) (b : Int) (hb : b ≤ 0)
    (fuel : Nat) :
    (rows = [] → ChunkIt (fuel + 1) rows b = .returns (if b < 0 then [] else [rows])) ∧
    (rows ≠ [] → ChunkIt (fuel + 1) rows b = (if b < 0 then .crash else .outOfFuel)) ∧
    (rows ≠ [] → ∀ (gas : Nat) (batches : List (List α)),
      ChunkIt gas rows b ≠ .returns batches) := by
  refine ⟨?_, ?_, ?_⟩
  · intro hr
    subst hr
    unfold ChunkIt
    simp only [List.length_nil, Int.natCast_zero]
    by_cases hlt : b < 0
    · rw [if_pos (by omega), if_pos hlt]
      unfold chunkLoop
      rw [if_neg (by simp)]
    · rw [if_neg (by omega), if_neg hlt]
      rfl
  · intro hne
    have hpos : 0 < rows.length := List.length_pos.2 hne
    unfold ChunkIt
    simp only []
    rw [if_pos (by omega)]
    by_cases hlt : b < 0
    · rw [if_pos hlt]
      exact chunkLoop_negative rows hne b hlt fuel []
    · rw [if_neg hlt]
      have h0 : b = 0 := by omega
      subst h0
      exact chunkLoop_zero rows hne _ []
  · intro hne gas batches
    have hpos : 0 < rows.length := List.length_pos.2 hne
    unfold ChunkIt
    simp only []
    rw [if_pos (by omega)]
    cases gas with
    | zero => unfold chunkLoop; simp
    | succ g =>
      by_cases hlt : b < 0
      · rw [chunkLoop_negative rows hne b hlt g []]; simp
      · have h0 : b = 0 := by omega
        subst h0
        rw [chunkLoop_zero rows hne _ []]; simp

/-- Witness of C15 amended: batch size 0 on three records. -/
theorem ChunkIt_nonpositive_witness :
    (0 : Int) ≤ 0 ∧
    ChunkIt (4 + 1) [1, 2, 3] 0 = (if (0 : Int) < 0 then .crash else .outOfFuel) :=
  ⟨by decide, (ChunkIt_nonpositive [1, 2, 3] 0 (by decide) 4).2.1 (by decide)⟩

/-! ## Templates without a column list -/

/-- C17 on the code: placeholder derivation reports no error when the column
list cannot be located. A template without parentheses, one without ")", and
one whose first ")" stands before its first "(" make createPlaceholder, and
CreateStatement without a supplied placeholder, stop in a slice bounds panic;
a template with a ")" but no "(" is read from its start and a placeholder is
returned. -/
theorem createPlaceholder_no_column_list :
    createPlaceholder "insert into t a, b values".toList
        ([⟨none, 1⟩, ⟨none, 2⟩] : Record Nat) = .crash ∧
    CreateStatement id "insert into t a, b values".toList
        ([[⟨none, 1⟩, ⟨none, 2⟩]] : List (Record Nat)) [] 0 = .crash ∧
    createPlaceholder "insert into t (a, b values".toList
        ([⟨none, 1⟩, ⟨none, 2⟩] : Record Nat) = .crash ∧
    createPlaceholder "insert into t )a, b( values".toList
        ([⟨none, 1⟩, ⟨none, 2⟩] : Record Nat) = .crash ∧
    CreateStatement id "insert into t )a, b( values".toList
        ([[⟨none, 1⟩, ⟨none, 2⟩]] : List (Record Nat)) [] 0 = .crash ∧
    createPlaceholder "insert into t a, b) values".toList
        ([⟨none, 1⟩, ⟨none, 2⟩] : Record Nat) = .returns ("(?,?)".toList, 2, none) :=
  ⟨by decide, by decide, by decide, by decide, by decide, by decide⟩

/-! ## Request validation -/

/-- C18: checkInsertRequest returns no error exactly when the record sequence
is non-empty, the template is non-empty and a database handle is given;
otherwise it reports the RequestEmpty entry of the error table when the record
sequence is empty (whatever the other arguments), else the QueryError entry
when the template is empty, else the DatabaseUnavailable entry. -/
theorem checkInsertRequest_cases {V D : Type} (errors : ErrorKey → GoString)
    (query : GoString) (rows : List (Record V)) (db : Option D) :
    (checkInsertRequest errors query rows db = none ↔
      rows ≠ [] ∧ query ≠ [] ∧ db ≠ none) ∧
    (rows = [] → checkInsertRequest errors query rows db = some (errors .requestEmpty)) ∧
    (rows ≠ [] → query = [] →
      checkInsertRequest errors query rows db = some (errors .queryError)) ∧
    (rows ≠ [] → query ≠ [] → db = none →
      checkInsertRequest errors query rows db = some (errors .databaseError)) := by
  unfold checkInsertRequest
  cases rows with
  | cons r rs =>
    cases query with
    | cons c cs =>
      cases db with
      | some d => simp
      | none => simp
    | nil => simp
  | nil => simp

/-- Witness of C18: the four outcomes on concrete requests. -/
theorem checkInsertRequest_cases_witness :
    checkInsertRequest (fun _ => "e".toList) "q".toList
        ([[⟨none, 1⟩]] : List (Record Nat)) (some ()) = none ∧
    checkInsertRequest (fun _ => "e".toList) "q".toList
        ([] : List (Record Nat)) (none : Option Unit) = some "e".toList ∧
    checkInsertRequest (fun _ => "e".toList) []
        ([[⟨none, 1⟩]] : List (Record Nat)) (some ()) = some "e".toList ∧
    checkInsertRequest (fun _ => "e".toList) "q".toList
        ([[⟨none, 1⟩]] : List (Record Nat)) (none : Option Unit) = some "e".toList :=
  ⟨(checkInsertRequest_cases _ _ _ _).1.2
      ⟨List.cons_ne_nil _ _, List.cons_ne_nil _ _, Option.some_ne_none _⟩,
    (checkInsertRequest_cases _ _ _ _).2.1 rfl,
    (checkInsertRequest_cases _ _ _ _).2.2.1 (List.cons_ne_nil _ _) rfl,
    (checkInsertRequest_cases _ _ _ _).2.2.2 (List.cons_ne_nil _ _) (List.cons_ne_nil _ _) rfl⟩

/-! ## Strings: Contains, Split and Join -/

theorem indexFrom_single_none (c : Char) :
    ∀ (s : GoString) (i : Nat), indexFrom [c] s i = none ↔ c ∉ s := by
  intro s
  induction s with
  | nil => intro i; simp [indexFrom]
  | cons x xs ih =>
    intro i
    rw [indexFrom, isPrefixOf_single]
    by_cases hx : c = x
    · subst hx; simp
    · have hx2 : ¬ x = c := fun e => hx e.symm
      simp [hx, ih (i + 1)]

theorem Contains_single (c : Char) (s : GoString) : Contains s [c] = true ↔ c ∈ s := by
  unfold Contains Index
  cases h : indexFrom [c] s 0 with
  | none =>
    have := (indexFrom_single_none c s 0).1 h
    simp [this]
  | some i =>
    have hmem : c ∈ s := by
      by_contra hn
      rw [(indexFrom_single_none c s 0).2 hn] at h
      exact absurd h (by simp)
    simp [hmem]

theorem splitFrom_ne_nil (sep : GoString) :
    ∀ (s : GoString) (n : Nat) (piece : GoString), splitFrom sep n piece s ≠ [] := by
  intro s
  induction s with
  | nil => intro n piece; simp [splitFrom]
  | cons c cs ih =>
    intro n piece
    cases n with
    | succ k => rw [splitFrom]; exact ih k piece
    | zero =>
      rw [splitFrom]
      split
      · exact List.cons_ne_nil _ _
      · exact ih 0 _

theorem Join_cons (a : GoString) (l : List GoString) (sep : GoString) (h : l ≠ []) :
    Join (a :: l) sep = a ++ sep ++ Join l sep := by
  cases l with
  | nil => exact absurd rfl h
  | cons b rest => rfl

theorem Join_splitFrom (sep : GoString) (hsep : sep ≠ []) :
    ∀ (s : GoString) (n : Nat) (piece : GoString), n ≤ s.length →
      Join (splitFrom sep n piece s) sep = piece ++ s.drop n := by
  intro s
  induction s with
  | nil =>
    intro n piece hn
    have : n = 0 := by simpa using hn
    subst this
    simp [splitFrom, Join]
  | cons c cs ih =>
    intro n piece hn
    cases n with
    | succ k =>
      rw [splitFrom, ih k piece (by simpa using hn)]
      rfl
    | zero =>
      rw [splitFrom]
      split
      · rename_i hpre
        have hp : sep <+: c :: cs := List.isPrefixOf_iff_prefix.1 hpre
        obtain ⟨t, ht⟩ := hp
        have hlen : sep.length - 1 ≤ cs.length := by
          have := congrArg List.length ht
          simp at this
          omega
        rw [Join_cons _ _ _ (splitFrom_ne_nil sep cs _ _), ih _ [] hlen]
        obtain ⟨x, xs, rfl⟩ : ∃ x xs, sep = x :: xs := by
          cases sep with
          | nil => exact absurd rfl hsep
          | cons x xs => exact ⟨x, xs, rfl⟩
        simp only [List.cons_append, List.cons.injEq] at ht
        obtain ⟨hxc, ht⟩ := ht
        simp only [List.length_cons, Nat.add_sub_cancel, List.nil_append, List.drop_zero]
        rw [← ht, hxc]
        simp
      · rw [ih 0 _ (Nat.zero_le _)]
        simp

theorem Join_Split (s sep : GoString) (hsep : sep ≠ []) : Join (Split s sep) sep = s := by
  unfold Split
  rw [Join_splitFrom sep hsep s 0 [] (Nat.zero_le _)]
  rfl

theorem splitFrom_skip (sep : GoString) :
    ∀ (s : GoString) (n : Nat) (piece : GoString), n ≤ s.length →
      splitFrom sep n piece s = splitFrom sep 0 piece (s.drop n) := by
  intro s
  induction s with
  | nil =>
    intro n piece hn
    have : n = 0 := by simpa using hn
    subst this
    rfl
  | cons c cs ih =>
    intro n piece hn
    cases n with
    | zero => rfl
    | succ k =>
      rw [splitFrom, ih k piece (by simpa using hn)]
      rfl

theorem splitFrom_at_sep (sep rest piece : GoString) (hsep : sep ≠ []) :
    splitFrom sep 0 piece (sep ++ rest) = piece :: splitFrom sep 0 [] rest := by
  obtain ⟨x, xs, rfl⟩ : ∃ x xs, sep = x :: xs := by
    cases sep with
    | nil => exact absurd rfl hsep
    | cons x xs => exact ⟨x, xs, rfl⟩
  rw [List.cons_append, splitFrom]
  have hpre : (x :: xs).isPrefixOf (x :: (xs ++ rest)) = true :=
    List.isPrefixOf_iff_prefix.2 ⟨rest, rfl⟩
  rw [if_pos hpre]
  rw [splitFrom_skip (x :: xs) (xs ++ rest) _ [] (by simp)]
  simp

theorem splitFrom_before (sep : GoString) :
    ∀ (a rest piece : GoString),
      (∀ k, k < a.length → ¬ sep <+: (a ++ rest).drop k) →
      splitFrom sep 0 piece (a ++ rest) = splitFrom sep 0 (piece ++ a) rest := by
  intro a
  induction a with
  | nil => intro rest piece _; simp
  | cons x xs ih =>
    intro rest piece h
    have h0 : ¬ sep <+: x :: (xs ++ rest) := by simpa using h 0 (by simp)
    have hb : sep.isPrefixOf (x :: (xs ++ rest)) = false := by
      cases hc : sep.isPrefixOf (x :: (xs ++ rest)) with
      | false => rfl
      | true => exact absurd (List.isPrefixOf_iff_prefix.1 hc) h0
    rw [List.cons_append, splitFrom, hb]
    simp only [Bool.false_eq_true, if_false]
    rw [ih rest (piece ++ [x]) (fun k hk => by simpa using h (k + 1) (by simpa using hk))]
    simp

theorem splitFrom_last (sep a piece : GoString)
    (h : ∀ k, k < a.length → ¬ sep <+: a.drop k) :
    splitFrom sep 0 piece a = [piece ++ a] := by
  have := splitFrom_before sep a [] piece (by simpa using h)
  simp only [List.append_nil] at this
  rw [this]
  rfl

theorem mem_Join (c : Char) (sep : GoString) :
    ∀ l : List GoString, c ∈ Join l sep → c ∈ sep ∨ ∃ w ∈ l, c ∈ w := by
  intro l
  induction l with
  | nil => intro h; simp [Join] at h
  | cons a rest ih =>
    intro h
    cases rest with
    | nil => exact Or.inr ⟨a, by simp, by simpa [Join] using h⟩
    | cons b rest2 =>
      rw [Join_cons _ _ _ (List.cons_ne_nil _ _)] at h
      rcases List.mem_append.1 h with h1 | h2
      · rcases List.mem_append.1 h1 with h3 | h4
        · exact Or.inr ⟨a, by simp, h3⟩
        · exact Or.inl h4
      · rcases ih h2 with h5 | ⟨w, hw, hc⟩
        · exact Or.inl h5
        · exact Or.inr ⟨w, List.mem_cons_of_mem _ hw, hc⟩

theorem mem_Join_of_mem (c : Char) (sep : GoString) :
    ∀ (l : List GoString) (w : GoString), w ∈ l → c ∈ w → c ∈ Join l sep := by
  intro l
  induction l with
  | nil => intro w hw; simp at hw
  | cons a rest ih =>
    intro w hw hc
    cases rest with
    | nil =>
      have : w = a := by simpa using hw
      subst this
      simpa [Join] using hc
    | cons b rest2 =>
      rw [Join_cons _ _ _ (List.cons_ne_nil _ _)]
      rcases List.mem_cons.1 hw with h1 | h2
      · subst h1
        exact List.mem_append_left _ (List.mem_append_left _ hc)
      · exact List.mem_append_right _ (ih w h2 hc)

theorem mem_of_mem_Split (c : Char) (s sep w : GoString) (hsep : sep ≠ [])
    (hw : w ∈ Split s sep) (hc : c ∈ w) : c ∈ s := by
  have := mem_Join_of_mem c sep (Split s sep) w hw hc
  rwa [Join_Split s sep hsep] at this

theorem Join_append_empty (sep : GoString) :
    ∀ segs : List GoString, segs ≠ [] → Join (segs ++ [[]]) sep = Join segs sep ++ sep := by
  intro segs
  induction segs with
  | nil => intro h; exact absurd rfl h
  | cons a rest ih =>
    intro _
    cases rest with
    | nil => simp [Join]
    | cons b rest2 =>
      rw [List.cons_append, Join_cons _ _ _ (by simp), ih (List.cons_ne_nil _ _),
        Join_cons _ _ _ (List.cons_ne_nil _ _)]
      simp [List.append_assoc]

theorem cleanSlice_keep (l : List GoString) (h : ∀ b ∈ l, removeSpaces b ≠ []) :
    cleanSlice l = l := by
  unfold cleanSlice
  rw [List.filter_eq_self]
  intro b hb
  have := h b hb
  simp [this]

theorem cleanSlice_blank_last (l : List GoString) (h : ∀ b ∈ l, removeSpaces b ≠ []) :
    cleanSlice (l ++ [[]]) = l := by
  have h1 := cleanSlice_keep l h
  unfold cleanSlice at h1 ⊢
  rw [List.filter_append, h1]
  simp [removeSpaces]

theorem filter_no_placeholder (l : List GoString) (h : ∀ w ∈ l, '?' ∉ w) :
    l.filter (fun w => !(Contains w "?".toList)) = l := by
  rw [List.filter_eq_self]
  intro w hw
  have hc : Contains w ['?'] = false := by
    cases hb : Contains w ['?'] with
    | false => rfl
    | true => exact absurd ((Contains_single '?' w).1 hb) (h w hw)
  show (!Contains w ['?']) = true
  rw [hc]
  rfl

/-! ## Query rewriting -/

/-- C12: for every query the result of cleanQueryString holds no "?": it is
the join, with "where ", of segments kept from the "where "-split of the
lower-cased query, none of the kept segments holds a "?", and every segment
that holds one is dropped. -/
theorem cleanQueryString_no_placeholder (tbl : Char → Char) (query : GoString) :
    '?' ∉ cleanQueryString tbl query ∧
    ∃ kept : List GoString,
      cleanQueryString tbl query = Join kept "where ".toList ∧
      kept.Sublist (Split (ToLower tbl query) "where ".toList) ∧
      (∀ w ∈ kept, '?' ∉ w) ∧
      (∀ w ∈ Split (ToLower tbl query) "where ".toList, '?' ∈ w → w ∉ kept) := by
  have hkept : ∀ w ∈ (cleanSlice (Split (ToLower tbl query) "where ".toList)).filter
      (fun w => !(Contains w "?".toList)), '?' ∉ w := by
    intro w hw hc
    have h1 := (List.mem_filter.1 hw).2
    have h2 : Contains w "?".toList = true := (Contains_single '?' w).2 hc
    rw [h2] at h1
    exact absurd h1 (by decide)
  refine ⟨?_, _, rfl, ?_, hkept, ?_⟩
  · intro hmem
    unfold cleanQueryString at hmem
    rcases mem_Join '?' _ _ hmem with h | ⟨w, hw, hc⟩
    · exact absurd h (by decide)
    · exact hkept w hw hc
  · exact (List.filter_sublist _).trans (List.filter_sublist _)
  · intro w _ hc hk
    exact hkept w hk hc

/-- C14, as stated, fails: every blank segment is discarded, not only a
trailing empty one. A query that starts with "where " loses that delimiter,
and of two delimiters in a row one is removed, although neither query holds a
"?" or ends with "where ". -/
theorem cleanQueryString_blank_counterexample :
    (cleanQueryString id "where a=1".toList = "a=1".toList ∧
      "a=1".toList ≠ ToLower id "where a=1".toList) ∧
    (cleanQueryString id "select * from t where where a=1".toList =
        "select * from t where a=1".toList ∧
      "select * from t where a=1".toList ≠
        ToLower id "select * from t where where a=1".toList) := by
  decide

/-- C14, amended: for every query whose lower-cased text holds no "?",
cleanQueryString returns the segments of the "where "-split of the lower-cased
query that are not blank (not empty and not made of spaces only), rejoined
with "where "; every blank segment is discarded wherever it stands. So the
lower-cased query comes back unchanged when no segment is blank, and without
its trailing "where " when the only blank segment is the empty one after a
trailing delimiter. -/
theorem cleanQueryString_without_placeholder (tbl : Char → Char) (query : GoString)
    (hq : '?' ∉ ToLower tbl query) :
    cleanQueryString tbl query =
      Join (cleanSlice (Split (ToLower tbl query) "where ".toList)) "where ".toList ∧
    ((∀ b ∈ Split (ToLower tbl query) "where ".toList, removeSpaces b ≠ []) →
      cleanQueryString tbl query = ToLower tbl query) ∧
    (∀ segs : List GoString,
      Split (ToLower tbl query) "where ".toList = segs ++ [[]] → segs ≠ [] →
      (∀ b ∈ segs, removeSpaces b ≠ []) →
      cleanQueryString tbl query ++ "where ".toList = ToLower tbl query) := by
  have hsep : "where ".toList ≠ [] := by decide
  have hfree : ∀ w ∈ cleanSlice (Split (ToLower tbl query) "where ".toList), '?' ∉ w := by
    intro w hw hc
    have hw2 : w ∈ Split (ToLower tbl query) "where ".toList := by
      unfold cleanSlice at hw
      exact (List.mem_filter.1 hw).1
    exact hq (mem_of_mem_Split '?' _ _ w hsep hw2 hc)
  have hmain : cleanQueryString tbl query =
      Join (cleanSlice (Split (ToLower tbl query) "where ".toList)) "where ".toList := by
    unfold cleanQueryString
    simp only []
    rw [filter_no_placeholder _ hfree]
  refine ⟨hmain, ?_, ?_⟩
  · intro hall
    rw [hmain, cleanSlice_keep _ hall, Join_Split _ _ hsep]
  · intro segs hsplit hne hall
    have hj := Join_Split (ToLower tbl query) "where ".toList hsep
    rw [hsplit, Join_append_empty _ segs hne] at hj
    rw [hmain, hsplit, cleanSlice_blank_last segs hall]
    exact hj

/-- Witness of C14 amended: a query with a trailing delimiter. -/
theorem cleanQueryString_without_placeholder_witness :
    cleanQueryString id "SELECT * FROM t WHERE a=1 WHERE ".toList ++ "where ".toList =
      ToLower id "SELECT * FROM t WHERE a=1 WHERE ".toList :=
  (cleanQueryString_without_placeholder id "SELECT * FROM t WHERE a=1 WHERE ".toList
    (by decide)).2.2 ["select * from t ".toList, "a=1 ".toList] (by decide) (by decide)
    (by decide)

theorem where_prefix_inside (a rest : GoString) (ha : a ≠ [])
    (h : "where ".toList <+: a ++ "where ".toList ++ rest) : "where ".toList <+: a := by
  have e : "where ".toList = ['w', 'h', 'e', 'r', 'e', ' '] := rfl
  rw [e] at h ⊢
  rcases a with _ | ⟨a1, _ | ⟨a2, _ | ⟨a3, _ | ⟨a4, _ | ⟨a5, _ | ⟨a6, t⟩⟩⟩⟩⟩⟩
  · exact absurd rfl ha
  · simp [List.cons_prefix_cons] at h
  · simp [List.cons_prefix_cons] at h
  · simp [List.cons_prefix_cons] at h
  · simp [List.cons_prefix_cons] at h
  · simp [List.cons_prefix_cons] at h
  · simp only [List.cons_append, List.cons_prefix_cons, List.nil_prefix, and_true] at h ⊢
    exact h

theorem where_not_before (a rest : GoString) (ha : ¬ "where ".toList <:+: a) :
    ∀ k, k < a.length → ¬ "where ".toList <+: (a ++ "where ".toList ++ rest).drop k := by
  intro k hk h
  have hd : (a ++ "where ".toList ++ rest).drop k = a.drop k ++ "where ".toList ++ rest := by
    rw [List.append_assoc, List.drop_append_of_le_length (Nat.le_of_lt hk), List.append_assoc]
  rw [hd] at h
  have hne : a.drop k ≠ [] := by
    intro e
    have := congrArg List.length e
    simp at this
    omega
  obtain ⟨t, ht⟩ := where_prefix_inside (a.drop k) rest hne h
  apply ha
  refine ⟨a.take k, t, ?_⟩
  rw [List.append_assoc, ht, List.take_append_drop]

theorem where_not_in (a : GoString) (ha : ¬ "where ".toList <:+: a) :
    ∀ k, k < a.length → ¬ "where ".toList <+: a.drop k := by
  intro k _ h
  obtain ⟨t, ht⟩ := h
  apply ha
  refine ⟨a.take k, t, ?_⟩
  rw [List.append_assoc, ht, List.take_append_drop]

theorem Split_three (a b c : GoString) (ha : ¬ "where ".toList <:+: a)
    (hb : ¬ "where ".toList <:+: b) (hc : ¬ "where ".toList <:+: c) :
    Split (a ++ "where ".toList ++ b ++ "where ".toList ++ c) "where ".toList = [a, b, c] := by
  have hsep : "where ".toList ≠ [] := by decide
  have e : a ++ "where ".toList ++ b ++ "where ".toList ++ c =
      a ++ "where ".toList ++ (b ++ "where ".toList ++ c) := by
    simp [List.append_assoc]
  unfold Split
  rw [e, List.append_assoc a, splitFrom_before _ a _ [] (by
    have := where_not_before a (b ++ "where ".toList ++ c) ha
    simpa [List.append_assoc] using this)]
  rw [splitFrom_at_sep _ _ _ hsep, List.append_assoc b,
    splitFrom_before _ b _ [] (by
      have := where_not_before b c hb
      simpa [List.append_assoc] using this)]
  rw [splitFrom_at_sep _ _ _ hsep, splitFrom_last _ c [] (where_not_in c hc)]
  simp

theorem ToLower_where (tbl : Char → Char) : ToLower tbl "where ".toList = "where ".toList := by
  rfl

/-- C13: for lower-case strings A, B, C none of which holds the delimiter
"where ", with A and B free of "?" and not blank and with a "?" in C,
cleanQueryString(A + "where " + B + "where " + C) is A + "where " + B: the
clause with the placeholder is dropped and the others are rejoined as they
are. -/
theorem cleanQueryString_drops_clause (tbl : Char → Char) (a b c : GoString)
    (hla : ToLower tbl a = a) (hlb : ToLower tbl b = b) (hlc : ToLower tbl c = c)
    (hda : ¬ "where ".toList <:+: a) (hdb : ¬ "where ".toList <:+: b)
    (hdc : ¬ "where ".toList <:+: c)
    (hqa : '?' ∉ a) (hqb : '?' ∉ b) (hqc : '?' ∈ c)
    (hba : removeSpaces a ≠ []) (hbb : removeSpaces b ≠ []) :
    cleanQueryString tbl (a ++ "where ".toList ++ b ++ "where ".toList ++ c) =
      a ++ "where ".toList ++ b := by
  have hlow : ToLower tbl (a ++ "where ".toList ++ b ++ "where ".toList ++ c) =
      a ++ "where ".toList ++ b ++ "where ".toList ++ c := by
    have hw := ToLower_where tbl
    unfold ToLower at hla hlb hlc hw ⊢
    rw [List.map_append, List.map_append, List.map_append, List.map_append, hla, hlb, hlc, hw]
  have hbc : removeSpaces c ≠ [] := by
    intro e
    have hmem : '?' ∈ removeSpaces c := by
      unfold removeSpaces
      exact List.mem_filter.2 ⟨hqc, by decide⟩
    rw [e] at hmem
    exact absurd hmem (List.not_mem_nil _)
  have hclean : cleanSlice [a, b, c] = [a, b, c] :=
    cleanSlice_keep _ (by
      intro x hx
      simp only [List.mem_cons, List.mem_singleton, List.not_mem_nil, or_false] at hx
      rcases hx with rfl | rfl | rfl
      · exact hba
      · exact hbb
      · exact hbc)
  have hca : Contains a "?".toList = false := by
    cases h : Contains a "?".toList with
    | false => rfl
    | true => exact absurd ((Contains_single '?' a).1 h) hqa
  have hcb : Contains b "?".toList = false := by
    cases h : Contains b "?".toList with
    | false => rfl
    | true => exact absurd ((Contains_single '?' b).1 h) hqb
  have hcc : Contains c "?".toList = true := (Contains_single '?' c).2 hqc
  unfold cleanQueryString
  simp only []
  rw [hlow, Split_three a b c hda hdb hdc, hclean]
  simp only [List.filter_cons, hca, hcb, hcc, Bool.not_false, Bool.not_true, if_true,
    Bool.false_eq_true, if_false, List.filter_nil]
  rfl

/-- Witness of C13: the input "select * from t where a=1 where b=?" gives
"select * from t where a=1 ". -/
theorem cleanQueryString_drops_clause_witness :
    cleanQueryString id "select * from t where a=1 where b=?".toList =
      "select * from t where a=1 ".toList :=
  cleanQueryString_drops_clause id "select * from t ".toList "a=1 ".toList "b=?".toList
    (by decide) (by decide) (by decide) (by decide) (by decide) (by decide)
    (by decide) (by decide) (by decide) (by decide) (by decide)

/-! ## Custom placeholders -/

theorem single_not_before (c : Char) (a rest : GoString) (h : c ∉ a) :
    ∀ k, k < a.length → ¬ [c] <+: (a ++ rest).drop k := by
  intro k hk hp
  rw [List.drop_append_of_le_length (Nat.le_of_lt hk)] at hp
  cases hd : a.drop k with
  | nil =>
    have := congrArg List.length hd
    simp at this
    omega
  | cons x xs =>
    rw [hd, List.cons_append, List.cons_prefix_cons] at hp
    have hx : x ∈ a.drop k := by rw [hd]; exact List.mem_cons_self _ _
    exact h (hp.1 ▸ List.mem_of_mem_drop hx)

theorem Split_single_none (c : Char) (s : GoString) (h : c ∉ s) : Split s [c] = [s] := by
  unfold Split
  have := splitFrom_last [c] s [] (by simpa using single_not_before c s [] h)
  simpa using this

theorem Split_single_two (c : Char) (a b : GoString) (ha : c ∉ a) (hb : c ∉ b) :
    Split (a ++ c :: b) [c] = [a, b] := by
  unfold Split
  rw [splitFrom_before [c] a (c :: b) [] (single_not_before c a (c :: b) ha)]
  have e : c :: b = [c] ++ b := rfl
  rw [e, splitFrom_at_sep [c] b _ (List.cons_ne_nil _ _)]
  have := Split_single_none c b hb
  unfold Split at this
  rw [this]
  simp

theorem dropWhile_head (p : Char → Bool) (s : GoString)
    (h : ∀ c, s.head? = some c → p c = false) : s.dropWhile p = s := by
  cases s with
  | nil => rfl
  | cons x xs =>
    have := h x rfl
    simp [List.dropWhile_cons, this]

theorem TrimSpace_id (s : GoString) (hhead : ∀ c, s.head? = some c → isSpace c = false)
    (hlast : ∀ c, s.getLast? = some c → isSpace c = false) : TrimSpace s = s := by
  unfold TrimSpace
  rw [dropWhile_head isSpace s hhead,
    dropWhile_head isSpace s.reverse (by simpa [List.head?_reverse] using hlast)]
  simp

theorem customPlaceholders_getElem? (shape : List (Option GoString)) (i : Nat) :
    (customPlaceholders shape)[i]? =
      (shape[i]?).map (fun lookup => (customPlaceholders [lookup]).getD 0 []) := by
  unfold customPlaceholders
  rw [List.getElem?_map]
  cases shape[i]? with
  | none => rfl
  | some lookup => rfl

/-- C19, as stated, fails: a token expression that holds a ":" is cut at it, a
token expression that ends in white space loses it, and an annotation whose
key only starts with `placeholder` is taken as an override. -/
theorem customPlaceholders_counterexample :
    customPlaceholders [some "placeholder:?::int".toList] = ["?".toList] ∧
    customPlaceholders [some "placeholder:f(?) ".toList] = ["f(?)".toList] ∧
    customPlaceholders [some "placeholders:x".toList] = ["x".toList] := by
  decide

/-- C19, amended: at every field position, if the field's qb annotation is
"placeholder:" followed by a token expression t that holds no ":" and does not
end in white space, the override is t verbatim; the position has no override
(empty, so "?" is used) if the field has no qb annotation, or if its
annotation, trimmed of surrounding white space, does not start with
`placeholder`, or if it holds no ":". -/
theorem customPlaceholders_override (shape : List (Option GoString)) (i : Nat) :
    (∀ t : GoString, shape[i]? = some (some ("placeholder:".toList ++ t)) → ':' ∉ t →
      (∀ c, t.getLast? = some c → isSpace c = false) →
      (customPlaceholders shape)[i]? = some t) ∧
    (shape[i]? = some none → (customPlaceholders shape)[i]? = some []) ∧
    (∀ tag : GoString, shape[i]? = some (some tag) →
      HasPrefix (TrimSpace tag) "placeholder".toList = false →
      (customPlaceholders shape)[i]? = some []) ∧
    (∀ tag : GoString, shape[i]? = some (some tag) → ':' ∉ TrimSpace tag →
      (customPlaceholders shape)[i]? = some []) := by
  refine ⟨?_, ?_, ?_, ?_⟩
  · intro t hs hcolon hlast
    rw [customPlaceholders_getElem?, hs]
    have htrim : TrimSpace ("placeholder:".toList ++ t) = "placeholder:".toList ++ t := by
      apply TrimSpace_id
      · intro c hc
        have : c = 'p' := by
          have e : ("placeholder:".toList ++ t).head? = some 'p' := rfl
          rw [e] at hc
          exact (Option.some.inj hc).symm
        subst this
        decide
      · intro c hc
        cases t with
        | nil =>
          have : c = ':' := by
            have e : ("placeholder:".toList ++ ([] : GoString)).getLast? = some ':' := rfl
            rw [e] at hc
            exact (Option.some.inj hc).symm
          subst this
          decide
        | cons x xs =>
          rw [List.getLast?_append_of_ne_nil _ (List.cons_ne_nil _ _)] at hc
          exact hlast c hc
    have hpre : HasPrefix ("placeholder:".toList ++ t) "placeholder".toList = true := by
      unfold HasPrefix
      exact List.isPrefixOf_iff_prefix.2 ⟨':' :: t, rfl⟩
    have hsplit : Split ("placeholder:".toList ++ t) ":".toList = ["placeholder".toList, t] := by
      have e : "placeholder:".toList ++ t = "placeholder".toList ++ ':' :: t := rfl
      rw [e]
      exact Split_single_two ':' _ t (by decide) hcolon
    simp only [customPlaceholders, List.map_cons, List.map_nil, htrim, hpre, hsplit, if_true,
      Option.map_some']
    rfl
  · intro hs
    rw [customPlaceholders_getElem?, hs]
    rfl
  · intro tag hs hpre
    rw [customPlaceholders_getElem?, hs]
    simp only [customPlaceholders, List.map_cons, List.map_nil, hpre, Option.map_some']
    rfl
  · intro tag hs hcolon
    rw [customPlaceholders_getElem?, hs]
    have hsplit : Split (TrimSpace tag) ":".toList = [TrimSpace tag] :=
      Split_single_none ':' _ hcolon
    simp only [customPlaceholders, List.map_cons, List.map_nil, hsplit, Option.map_some']
    cases HasPrefix (TrimSpace tag) "placeholder".toList <;> rfl

/-- Witness of C19 amended: "placeholder:cstm(?)" gives "cstm(?)". -/
theorem customPlaceholders_override_witness :
    (customPlaceholders [none, some "placeholder:cstm(?)".toList])[1]? =
      some "cstm(?)".toList :=
  (customPlaceholders_override [none, some "placeholder:cstm(?)".toList] 1).1
    "cstm(?)".toList rfl (by decide) (by decide)

/-! ## Bind markers and arguments -/

theorem createPlaceholder_of_list {V : Type} (pre list post : GoString) (a : Record V)
    (hopen : '(' ∉ pre) (hclose : ')' ∉ pre) (hlist : ')' ∉ list)
    (hcols : list.count ',' + 1 = a.length) :
    createPlaceholder (pre ++ "(".toList ++ list ++ ")".toList ++ post) a =
      .returns
        ("(".toList ++
            Join ((customPlaceholders a.shape).map
              (fun t => if t = [] then "?".toList else t)) ",".toList ++
          ")".toList,
          (a.length : Int), none) := by
  unfold createPlaceholder
  rw [extractQueryColumns_list pre list post hopen hclose hlist]
  have hlen : (Split (removeSpaces list) ",".toList).length = a.length := by
    show (Split (removeSpaces list) [',']).length = _
    rw [Split_single_length, count_removeSpaces _ (by decide), hcols]
  simp only []
  rw [if_neg (not_not.2 hlen)]
  have hc : (customPlaceholders a.shape).length = a.length := by
    rw [customPlaceholders_length]; simp [Record.shape]
  rw [← hc, map_placeholderAt]

theorem map_plain (l : List GoString) (h : ∀ t ∈ l, t = []) :
    l.map (fun t => if t = [] then "?".toList else t) = List.replicate l.length "?".toList := by
  induction l with
  | nil => rfl
  | cons x xs ih =>
    have hx : x = [] := h x (List.mem_cons_self _ _)
    rw [List.map_cons, ih (fun t ht => h t (List.mem_cons_of_mem _ ht)), hx]
    simp [List.replicate_succ]

theorem CreateStatement_of_derived {V : Type} (tbl : Char → Char) (query : GoString)
    (rows : List (Record V)) (p : GoString) (count : Int) (q : GoString) (n : Nat)
    (hd : derivedPlaceholder query rows p count = .returns (q, (n : Int), none))
    (hall : ∀ r ∈ rows, r.length = n) :
    CreateStatement tbl query rows p count =
      .returns (queryValues tbl query ++ " ".toList ++
          Join (List.replicate rows.length q) ",".toList,
        (rows.map (fun r => r.map (fun f => some f.value))).flatten, none) := by
  unfold CreateStatement
  rw [hd]
  simp only []
  have hfill := storeRows_fill n rows [] (rows.length * n) hall (Nat.le_refl _)
  have hsz : ((rows.length : Int) * (n : Int)).toNat = rows.length * n := by
    rw [← Int.natCast_mul, Int.toNat_ofNat]
  have hnn : ¬ (rows.length : Int) * (n : Int) < 0 := by
    rw [← Int.natCast_mul]; omega
  rw [if_neg hnn, hsz]
  simp only [List.nil_append, List.length_nil, Nat.sub_self, List.replicate_zero,
    List.append_nil, Nat.zero_add] at hfill
  rw [hfill]
  simp only [List.map_const']

theorem count_Join_replicate (c : Char) (x sep : GoString) (hsep : c ∉ sep) :
    ∀ k : Nat, (Join (List.replicate k x) sep).count c = k * x.count c := by
  intro k
  induction k with
  | zero => simp [Join]
  | succ k ih =>
    cases k with
    | zero => simp [Join]
    | succ j =>
      rw [List.replicate_succ, Join_cons _ _ _ (by simp [List.replicate_succ]),
        List.count_append, List.count_append, ih, List.count_eq_zero_of_not_mem hsep]
      ring

/-- C20: when the template's first "(" and first ")" enclose a list of n
comma-separated columns, its lower-cased text has its first "values" behind a
non-empty prefix that holds no "?", and the records are a non-empty list that
all have n fields and no custom placeholder override, CreateStatement called
without a supplied placeholder returns without error, and the number of "?"
in the returned statement equals the length of the returned argument list,
both being len(rows) * n. -/
theorem CreateStatement_bind_markers {V : Type} (tbl : Char → Char)
    (pre list post before after : GoString) (rows : List (Record V)) (n : Nat)
    (hopen : '(' ∉ pre) (hclose : ')' ∉ pre) (hlist : ')' ∉ list)
    (hcols : list.count ',' + 1 = n)
    (hsplit : ToLower tbl (pre ++ "(".toList ++ list ++ ")".toList ++ post) =
      before ++ "values".toList ++ after)
    (hne : before ≠ [])
    (hfirst : ∀ k, k < before.length → ¬ "values".toList <+:
      (ToLower tbl (pre ++ "(".toList ++ list ++ ")".toList ++ post)).drop k)
    (hfree : '?' ∉ before)
    (hrows : rows ≠ [])
    (hall : ∀ r ∈ rows, r.length = n)
    (hplain : ∀ r ∈ rows, ∀ t ∈ customPlaceholders r.shape, t = []) :
    ∃ st args,
      CreateStatement tbl (pre ++ "(".toList ++ list ++ ")".toList ++ post) rows [] 0 =
        .returns (st, args, none) ∧
      st.count '?' = args.length ∧ args.length = rows.length * n := by
  obtain ⟨first, rest, rfl⟩ : ∃ first rest, rows = first :: rest := by
    cases rows with
    | nil => exact absurd rfl hrows
    | cons r rs => exact ⟨r, rs, rfl⟩
  have hfirstlen : first.length = n := hall first (List.mem_cons_self _ _)
  have hcp : (customPlaceholders first.shape).length = n := by
    rw [customPlaceholders_length]; simp [Record.shape, hfirstlen]
  have hd : derivedPlaceholder (pre ++ "(".toList ++ list ++ ")".toList ++ post)
      (first :: rest) [] 0 =
      .returns ("(".toList ++ Join (List.replicate n "?".toList) ",".toList ++ ")".toList,
        (n : Int), none) := by
    unfold derivedPlaceholder
    rw [if_pos ⟨rfl, rfl⟩]
    simp only []
    rw [createPlaceholder_of_list pre list post first hopen hclose hlist
      (by rw [hcols, hfirstlen]),
      map_plain _ (hplain first (List.mem_cons_self _ _)), hcp, hfirstlen]
  refine ⟨_, _, CreateStatement_of_derived tbl _ (first :: rest) [] 0 _ n hd hall, ?_, ?_⟩
  · rw [queryValues_cut tbl _ before after hsplit hne hfirst,
      flatten_values_length n (first :: rest) hall]
    have hrow : ("(".toList ++ Join (List.replicate n "?".toList) ",".toList ++
        ")".toList).count '?' = n := by
      rw [List.count_append, List.count_append,
        count_Join_replicate '?' "?".toList ",".toList (by decide) n]
      have e1 : ("(".toList).count '?' = 0 := by decide
      have e2 : (")".toList).count '?' = 0 := by decide
      have e3 : ("?".toList).count '?' = 1 := by decide
      rw [e1, e2, e3]
      omega
    rw [List.count_append, List.count_append, List.count_append,
      count_Join_replicate '?' _ ",".toList (by decide) _, hrow,
      List.count_eq_zero_of_not_mem hfree]
    have e4 : (" values".toList).count '?' = 0 := by decide
    have e5 : (" ".toList).count '?' = 0 := by decide
    rw [e4, e5]
    omega
  · exact flatten_values_length n (first :: rest) hall

/-- Witness of C20: the template "insert into t (a,b) values (x)" with two
2-field records gives four "?" and four arguments. -/
theorem CreateStatement_bind_markers_witness :
    ∃ st args,
      CreateStatement id "insert into t (a,b) values (x)".toList
          ([[⟨none, 1⟩, ⟨none, 2⟩], [⟨none, 3⟩, ⟨none, 4⟩]] : List (Record Nat)) [] 0 =
        .returns (st, args, none) ∧
      st.count '?' = args.length ∧ args.length = 2 * 2 :=
  CreateStatement_bind_markers id "insert into t ".toList "a,b".toList " values (x)".toList
    "insert into t (a,b) ".toList " (x)".toList
    ([[⟨none, 1⟩, ⟨none, 2⟩], [⟨none, 3⟩, ⟨none, 4⟩]] : List (Record Nat)) 2
    (by decide) (by decide) (by decide) (by decide) (by decide) (by decide) (by decide)
    (by decide) (List.cons_ne_nil _ _) (by decide) (by decide)

end qb
